import Mathlib

/-
Shallow embedding of the CHIP-8 emulator core from src/main.rs.

Modelling conventions:
* Machine integers (u8/u16) are `Nat`; wrapping casts are explicit `% 256`
  resp. `% 65536` at the same places the source casts.
* Rust array indexing can abort the program when the index is out of bounds,
  so every fallible operation returns `Option`; `none` models the fatal abort.
* Fixed-size arrays are modelled as total functions with the source's bounds
  checks made explicit in the accessors (`Memory.memory` has 0xFFF cells,
  `Display.pixels` is 64 x 32, `Keys.keys` and the call stack have 16 cells).
* The register file (struct `Registers`, fields v0..vf, with `Index`/`IndexMut`
  mapping the numeric index to the field) is modelled as a function from the
  index to the stored value; index 15 is vf.  The `Index` impls abort for
  indices > 15, but every index the Cpu presents is a masked 4-bit field, so
  that branch is unreachable and `Registers.get` is left total.
* `rand::thread_rng` is replaced by an explicit entropy parameter `rnd`;
  `genRange lo hi rnd` models `Rng::gen_range(lo, hi)`, a uniform sample from
  the half-open interval [lo, hi): as `rnd` ranges over all naturals the
  sample ranges exactly over lo, ..., hi-1.
-/

/-- Register file: struct `Registers` with fields v0..vf and the
`Index`/`IndexMut` impls; the value of register `i` is `r i`, vf is `r 15`. -/
def Registers : Type := Nat → Nat

/-- `Registers::index` (registers are only ever indexed with 4-bit fields). -/
def Registers.get (r : Registers) (i : Nat) : Nat := r i

/-- `Registers::index_mut` followed by an assignment. -/
def Registers.set (r : Registers) (i v : Nat) : Registers :=
  fun j => if j = i then v else r j

/-- `u8::wrapping_sub` on byte values. -/
def wrapping_sub (a b : Nat) : Nat := (a + (256 - b % 256)) % 256

/-- struct `Memory { memory: [u8; 0xFFF] }` - note the source allocates
0xFFF = 4095 cells, so valid indices are 0..4094. -/
structure Memory where
  memory : Nat → Nat

/-- `Memory::new`. -/
def Memory.new : Memory := ⟨fun _ => 0⟩

/-- `Memory::read_u8`; `none` models the fatal out-of-bounds abort of
`self.memory[location as usize]`. -/
def Memory.read_u8 (m : Memory) (location : Nat) : Option Nat :=
  if location < 0xFFF then some (m.memory location) else none

/-- `Memory::read_u16` - in the source this reads a single byte, exactly like
`read_u8` (the 16-bit combination happens in `Cpu::fetch`). -/
def Memory.read_u16 (m : Memory) (location : Nat) : Option Nat :=
  if location < 0xFFF then some (m.memory location) else none

/-- `Memory::write_u8`. -/
def Memory.write_u8 (m : Memory) (location value : Nat) : Option Memory :=
  if location < 0xFFF then
    some ⟨fun a => if a = location then value else m.memory a⟩
  else none

/-- struct `Keys { keys: [bool; 16] }`. -/
structure Keys where
  keys : Nat → Bool

/-- `Keys::new`. -/
def Keys.new : Keys := ⟨fun _ => false⟩

/-- `Keys::is_pressed`; the source indexes `self.keys[key as usize]` with a
full byte, so `key >= 16` is a fatal out-of-bounds abort, modelled by `none`. -/
def Keys.is_pressed (k : Keys) (key : Nat) : Option Bool :=
  if key < 16 then some (k.keys key) else none

/-- struct `Display { pixels: [[u8; 32]; 64] }`, addressed `pixels[x][y]`. -/
structure Display where
  pixels : Nat → Nat → Nat

/-- `Display::new`. -/
def Display.new : Display := ⟨fun _ _ => 0⟩

/-- `Display::clear`. -/
def Display.clear (_d : Display) : Display := ⟨fun _ _ => 0⟩

/-- A read of `self.display.pixels[x][y]`; `none` models the fatal
out-of-bounds abort. -/
def Display.getPixel (d : Display) (x y : Nat) : Option Nat :=
  if x < 64 ∧ y < 32 then some (d.pixels x y) else none

/-- A write to `self.display.pixels[x][y]`. -/
def Display.setPixel (d : Display) (x y v : Nat) : Option Display :=
  if x < 64 ∧ y < 32 then
    some ⟨fun a b => if a = x ∧ b = y then v else d.pixels a b⟩
  else none

/-- struct `Cpu`. -/
structure Cpu where
  i : Nat
  pc : Nat
  stack : Nat → Nat
  sp : Nat
  delay : Nat
  sound : Nat
  registers : Registers
  memory : Memory
  keys : Keys
  waiting_for_input : Bool
  display : Display

/-- `Cpu::new`. -/
def Cpu.new (memory : Memory) (display : Display) : Cpu :=
  { i := 0, pc := 0x200, stack := fun _ => 0, sp := 0, delay := 0, sound := 0,
    registers := fun _ => 0, memory := memory, keys := Keys.new,
    waiting_for_input := false, display := display }

/-- `Cpu::fetch`: two consecutive bytes combined big-endian. -/
def Cpu.fetch (s : Cpu) (location : Nat) : Option Nat := do
  let first_part ← s.memory.read_u16 location
  let second_part ← s.memory.read_u16 (location + 1)
  some ((first_part <<< 8) ||| second_part)

/-- Models `rand::Rng::gen_range(lo, hi)` (upper bound exclusive) with the
entropy injected as `rnd`. -/
def genRange (lo hi rnd : Nat) : Nat := lo + rnd % (hi - lo)

/-- The sprite bit extracted by the draw loop:
`(byte & (0b1000_0000 >> index)) >> (7 - index)`. -/
def bitValue (byte index : Nat) : Nat :=
  (byte &&& (0b10000000 >>> index)) >>> (7 - index)

/-- Inner loop of the `Dxyn` handler (`for index in 0..8`), called with the
index list `[0, ..., 7]`.  Returns the updated registers (only vf can change),
display and `sprite_x`.  The source checks the collision (only while vf is
still 0), XORs the bit into the pixel, advances `sprite_x` and breaks out of
the loop once `sprite_x` exceeds 63. -/
def drawBits (byte : Nat) : List Nat → Registers → Display → Nat → Nat →
    Option (Registers × Display × Nat)
  | [], regs, d, sprite_x, _ => some (regs, d, sprite_x)
  | index :: rest, regs, d, sprite_x, sprite_y => do
    let value := bitValue byte index
    let pixel ← d.getPixel sprite_x sprite_y
    let regs1 := if regs.get 15 = 0 ∧ value = 1 ∧ pixel = 1
      then regs.set 15 1 else regs
    let d1 ← d.setPixel sprite_x sprite_y (pixel ^^^ value)
    if sprite_x + 1 > 63 then some (regs1, d1, sprite_x + 1)
    else drawBits byte rest regs1 d1 (sprite_x + 1) sprite_y

/-- Outer loop of the `Dxyn` handler (`for i in self.i..(self.i + n)`), called
with the row address list `[i, ..., i+n-1]`.  After each row `sprite_x` is
reset to the raw value of register `x` (not reduced mod 64) and `sprite_y` is
incremented, breaking once it exceeds 31. -/
def drawRows (x : Nat) (mem : Memory) : List Nat → Registers → Display →
    Nat → Nat → Option (Registers × Display)
  | [], regs, d, _, _ => some (regs, d)
  | i :: rest, regs, d, sprite_x, sprite_y => do
    let byte ← mem.read_u8 i
    let (regs1, d1, _) ← drawBits byte [0, 1, 2, 3, 4, 5, 6, 7] regs d sprite_x sprite_y
    if sprite_y + 1 > 31 then some (regs1, d1)
    else drawRows x mem rest regs1 d1 (regs1.get x) (sprite_y + 1)

/-- The `0xD000..=0xDFFF` match arm: vf is cleared, the start position is
`(Vx mod 64, Vy mod 32)`, then the row loop runs.  The loop bound
`self.i + n` is a u16 addition, which aborts on overflow. -/
def execDraw (s : Cpu) (x y n : Nat) : Option Cpu :=
  let regs0 := s.registers.set 15 0
  let sprite_x := regs0.get x % 64
  let sprite_y := regs0.get y % 32
  if s.i + n < 65536 then do
    let (regs1, d1) ← drawRows x s.memory (List.range' s.i n) regs0 s.display sprite_x sprite_y
    some { s with registers := regs1, display := d1 }
  else none

/-- Register-file effect of the inner `match operation` of the
`0x8000..=0x8FFE` arm; every arm writes only the register file, so it is
factored as a function on `Registers`.  The default arm `_ => {}` leaves the
registers unchanged. -/
def arithRegs (r : Registers) (x y k : Nat) : Registers :=
  if k = 0 then r.set x (r.get y)
  else if k = 1 then r.set x (r.get x ||| r.get y)
  else if k = 2 then r.set x (r.get x &&& r.get y)
  else if k = 3 then r.set x (r.get x ^^^ r.get y)
  else if k = 4 then
    let value := r.get x + r.get y
    let regs1 := r.set x (value % 256)
    if value > 255 then regs1.set 15 1 else regs1.set 15 0
  else if k = 5 then
    let regs1 := if r.get x > r.get y then r.set 15 1 else r.set 15 0
    regs1.set x (wrapping_sub (regs1.get x) (regs1.get y))
  else if k = 6 then
    let regs1 := if r.get x &&& 1 = 1 then r.set 15 1 else r.set 15 0
    regs1.set x (regs1.get x / 2)
  else if k = 7 then
    let regs1 := r.set x (wrapping_sub (r.get y) (r.get x))
    if regs1.get y > regs1.get x then regs1.set 15 1 else regs1.set 15 0
  else if k = 0xE then
    let regs1 := if r.get x &&& (1 <<< 7) ≠ 0 then r.set 15 1 else r.set 15 0
    let value := regs1.get x * 2
    regs1.set x (value % 256)
  else r

/-- The `0x8000..=0x8FFE` arm updates the register file per `arithRegs`. -/
def execArith (s : Cpu) (x y k : Nat) : Cpu :=
  { s with registers := arithRegs s.registers x y k }

/-- The inner `match operation` of the `0xE000..=0xEFFF` arm; the key index
is the full byte value of register `x`.  The default arm is a no-op. -/
def execKey (s : Cpu) (x kk : Nat) : Option Cpu :=
  if kk = 0x9E then do
    let pressed ← s.keys.is_pressed (s.registers.get x)
    if pressed then some { s with pc := (s.pc + 2) % 65536 } else some s
  else if kk = 0xA1 then do
    let pressed ← s.keys.is_pressed (s.registers.get x)
    if pressed then some s else some { s with pc := (s.pc + 2) % 65536 }
  else some s

/-- `for register in 0..(x + 1)` of the `Fx55` arm, called with `[0, ..., x]`. -/
def storeRegs (regs : Registers) (base : Nat) : List Nat → Memory → Option Memory
  | [], mem => some mem
  | k :: rest, mem => do
    let mem1 ← mem.write_u8 (base + k) (regs.get k)
    storeRegs regs base rest mem1

/-- `for register in 0..(x + 1)` of the `Fx65` arm, called with `[0, ..., x]`. -/
def loadRegs (mem : Memory) (base : Nat) : List Nat → Registers → Option Registers
  | [], regs => some regs
  | k :: rest, regs => do
    let v ← mem.read_u8 (base + k)
    loadRegs mem base rest (regs.set k v)

/-- The three decimal-digit writes of the `Fx33` arm. -/
def bcdWrite (mem : Memory) (i value : Nat) : Option Memory := do
  let mem1 ← mem.write_u8 i (value / 100)
  let mem2 ← mem1.write_u8 (i + 1) (value % 100 / 10)
  mem2.write_u8 (i + 2) (value % 10)

/-- The inner `match operation` of the `0xF007..=0xFF65` arm.  The default
arm is a no-op; the `0x0A` arm only sets `waiting_for_input`. -/
def execF (s : Cpu) (x kk : Nat) : Option Cpu :=
  if kk = 0x07 then some { s with registers := s.registers.set x s.delay }
  else if kk = 0x0A then some { s with waiting_for_input := true }
  else if kk = 0x15 then some { s with delay := s.registers.get x }
  else if kk = 0x18 then some { s with sound := s.registers.get x }
  else if kk = 0x1E then some { s with i := (s.i + s.registers.get x) % 65536 }
  else if kk = 0x29 then some { s with i := s.registers.get x * 5 }
  else if kk = 0x33 then do
    let mem3 ← bcdWrite s.memory s.i (s.registers.get x)
    some { s with memory := mem3 }
  else if kk = 0x55 then do
    let mem1 ← storeRegs s.registers s.i (List.range (x + 1)) s.memory
    some { s with memory := mem1 }
  else if kk = 0x65 then do
    let regs1 ← loadRegs s.memory s.i (List.range (x + 1)) s.registers
    some { s with registers := regs1 }
  else some s

/-- `Cpu::decode_and_execute`: the top-level `match opcode` with the arms in
source order; the wildcard arm is the fatal unsupported-opcode abort.
`rnd` is the injected entropy consumed only by the `Cxkk` arm. -/
def decode_and_execute (rnd : Nat) (s : Cpu) (opcode : Nat) : Option Cpu :=
  let x := (opcode &&& 0x0F00) >>> 8
  let y := (opcode &&& 0x00F0) >>> 4
  let kk := opcode &&& 0x00FF
  let nnn := opcode &&& 0x0FFF
  let n := opcode &&& 0x000F
  if opcode = 0x00E0 then some { s with display := s.display.clear }
  else if opcode = 0x00EE then
    if 1 ≤ s.sp ∧ s.sp - 1 < 16 then
      some { s with pc := s.stack (s.sp - 1), sp := s.sp - 1 }
    else none
  else if 0x1000 ≤ opcode ∧ opcode ≤ 0x1FFF then
    some { s with pc := opcode &&& 0x0FFF }
  else if 0x2000 ≤ opcode ∧ opcode ≤ 0x2FFF then
    if s.sp < 16 then
      some { s with sp := s.sp + 1,
                    stack := fun j => if j = s.sp then s.pc else s.stack j,
                    pc := nnn }
    else none
  else if 0x3000 ≤ opcode ∧ opcode ≤ 0x3FFF then
    some (if s.registers.get x = kk then { s with pc := (s.pc + 2) % 65536 } else s)
  else if 0x4000 ≤ opcode ∧ opcode ≤ 0x4FFF then
    some (if s.registers.get x ≠ kk then { s with pc := (s.pc + 2) % 65536 } else s)
  else if 0x5000 ≤ opcode ∧ opcode ≤ 0x5FF0 then
    some (if s.registers.get x = s.registers.get y then { s with pc := (s.pc + 2) % 65536 } else s)
  else if 0x6000 ≤ opcode ∧ opcode ≤ 0x6FFF then
    some { s with registers := s.registers.set x kk }
  else if 0x7000 ≤ opcode ∧ opcode ≤ 0x7FFF then
    some { s with registers := s.registers.set x ((s.registers.get x + kk) % 256) }
  else if 0x8000 ≤ opcode ∧ opcode ≤ 0x8FFE then
    some (execArith s x y (opcode &&& 0x000F))
  else if 0x9000 ≤ opcode ∧ opcode ≤ 0x9FF0 then
    some (if s.registers.get x ≠ s.registers.get y then { s with pc := (s.pc + 2) % 65536 } else s)
  else if 0xA000 ≤ opcode ∧ opcode ≤ 0xAFFF then some { s with i := nnn }
  else if 0xB000 ≤ opcode ∧ opcode ≤ 0xBFFF then
    some { s with pc := nnn + s.registers.get 0 }
  else if 0xC000 ≤ opcode ∧ opcode ≤ 0xCFFF then
    some { s with registers := s.registers.set x (genRange 0 255 rnd &&& kk) }
  else if 0xD000 ≤ opcode ∧ opcode ≤ 0xDFFF then execDraw s x y n
  else if 0xE000 ≤ opcode ∧ opcode ≤ 0xEFFF then execKey s x kk
  else if 0xF007 ≤ opcode ∧ opcode ≤ 0xFF65 then execF s x kk
  else none

/-- `Cpu::cycle`: fetch at `pc`, advance `pc` by 2, then decode and execute. -/
def cycle (rnd : Nat) (s : Cpu) : Option Cpu := do
  let opcode ← s.fetch s.pc
  decode_and_execute rnd { s with pc := (s.pc + 2) % 65536 } opcode

/-- The set of opcodes matched by some non-wildcard arm of the source's
top-level `match opcode`. -/
def matchedOpcode (op : Nat) : Prop :=
  op = 0x00E0 ∨ op = 0x00EE ∨
  (0x1000 ≤ op ∧ op ≤ 0x1FFF) ∨ (0x2000 ≤ op ∧ op ≤ 0x2FFF) ∨
  (0x3000 ≤ op ∧ op ≤ 0x3FFF) ∨ (0x4000 ≤ op ∧ op ≤ 0x4FFF) ∨
  (0x5000 ≤ op ∧ op ≤ 0x5FF0) ∨ (0x6000 ≤ op ∧ op ≤ 0x6FFF) ∨
  (0x7000 ≤ op ∧ op ≤ 0x7FFF) ∨ (0x8000 ≤ op ∧ op ≤ 0x8FFE) ∨
  (0x9000 ≤ op ∧ op ≤ 0x9FF0) ∨ (0xA000 ≤ op ∧ op ≤ 0xAFFF) ∨
  (0xB000 ≤ op ∧ op ≤ 0xBFFF) ∨ (0xC000 ≤ op ∧ op ≤ 0xCFFF) ∨
  (0xD000 ≤ op ∧ op ≤ 0xDFFF) ∨ (0xE000 ≤ op ∧ op ≤ 0xEFFF) ∨
  (0xF007 ≤ op ∧ op ≤ 0xFF65)

/-- A small association-list memory builder for concrete test states. -/
def memWith (assocs : List (Nat × Nat)) : Memory :=
  ⟨fun a => (((assocs.find? (fun p => p.1 == a)).map Prod.snd).getD 0)⟩

/-- Updating a register and reading it back. -/
theorem Registers.get_set_self (r : Registers) (i v : Nat) : (r.set i v).get i = v := by
  simp [Registers.get, Registers.set]

/-- Updating one register leaves the others unchanged. -/
theorem Registers.get_set_ne (r : Registers) {i j : Nat} (v : Nat) (h : j ≠ i) :
    (r.set i v).get j = r.get j := by
  simp [Registers.get, Registers.set, h]

/-- A sprite bit is 0 or 1: the mask `0b1000_0000 >> index` has at most one
bit set, so masking and shifting yields at most 1. -/
theorem bitValue_le_one (byte index : Nat) : bitValue byte index ≤ 1 := by
  unfold bitValue
  by_cases h : index ≤ 7
  · have hmask : (0b10000000 : Nat) >>> index = 2 ^ (7 - index) := by
      interval_cases index <;> rfl
    rw [hmask, Nat.shiftRight_eq_div_pow]
    have h1 : byte &&& 2 ^ (7 - index) ≤ 2 ^ (7 - index) := Nat.and_le_right
    have h2 : (byte &&& 2 ^ (7 - index)) / 2 ^ (7 - index) ≤ 2 ^ (7 - index) / 2 ^ (7 - index) :=
      Nat.div_le_div_right h1
    simpa [Nat.div_self (Nat.two_pow_pos (7 - index))] using h2
  · have hmask : (0b10000000 : Nat) >>> index = 0 := by
      rw [Nat.shiftRight_eq_div_pow]
      refine Nat.div_eq_of_lt (lt_of_lt_of_le (show (128 : Nat) < 2 ^ 8 by norm_num) ?_)
      exact Nat.pow_le_pow_right (by norm_num) (by omega)
    simp [hmask]

/-- The wildcard arm: an opcode matched by no family is a fatal fault. -/
theorem decode_unmatched_none (rnd : Nat) (s : Cpu) (op : Nat)
    (h : ¬ matchedOpcode op) : decode_and_execute rnd s op = none := by
  simp only [matchedOpcode, not_or] at h
  obtain ⟨h1, h2, h3, h4, h5, h6, h7, h8, h9, h10, h11, h12, h13, h14, h15, h16, h17⟩ := h
  simp only [decode_and_execute]
  rw [if_neg h1, if_neg h2, if_neg h3, if_neg h4, if_neg h5, if_neg h6, if_neg h7,
    if_neg h8, if_neg h9, if_neg h10, if_neg h11, if_neg h12, if_neg h13, if_neg h14,
    if_neg h15, if_neg h16, if_neg h17]

/-- Equation for the `0x00EE` (return) arm. -/
theorem decode_eq_00EE (rnd : Nat) (s : Cpu) :
    decode_and_execute rnd s 0x00EE =
      if 1 ≤ s.sp ∧ s.sp - 1 < 16 then
        some { s with pc := s.stack (s.sp - 1), sp := s.sp - 1 }
      else none := by
  simp only [decode_and_execute]
  rw [if_neg (by omega), if_pos trivial]

/-- Equation for the `0x2000..=0x2FFF` (call) arm. -/
theorem decode_eq_2nnn (rnd : Nat) (s : Cpu) (op : Nat)
    (h1 : 0x2000 ≤ op) (h2 : op ≤ 0x2FFF) :
    decode_and_execute rnd s op =
      if s.sp < 16 then
        some { s with sp := s.sp + 1,
                      stack := fun j => if j = s.sp then s.pc else s.stack j,
                      pc := op &&& 0x0FFF }
      else none := by
  simp only [decode_and_execute]
  rw [if_neg (by intro hc; omega), if_neg (fun hc => by omega), if_neg (by omega), if_pos ⟨h1, h2⟩]

/-- Equation for the `0x3000..=0x3FFF` (skip if Vx = kk) arm. -/
theorem decode_eq_3xkk (rnd : Nat) (s : Cpu) (op : Nat)
    (h1 : 0x3000 ≤ op) (h2 : op ≤ 0x3FFF) :
    decode_and_execute rnd s op =
      some (if s.registers.get ((op &&& 0x0F00) >>> 8) = op &&& 0x00FF
            then { s with pc := (s.pc + 2) % 65536 } else s) := by
  simp only [decode_and_execute]
  rw [if_neg (by intro hc; omega), if_neg (fun hc => by omega), if_neg (by omega), if_neg (by intro hc; omega),
    if_pos ⟨h1, h2⟩]

/-- Equation for the `0x4000..=0x4FFF` (skip if Vx not kk) arm. -/
theorem decode_eq_4xkk (rnd : Nat) (s : Cpu) (op : Nat)
    (h1 : 0x4000 ≤ op) (h2 : op ≤ 0x4FFF) :
    decode_and_execute rnd s op =
      some (if s.registers.get ((op &&& 0x0F00) >>> 8) ≠ op &&& 0x00FF
            then { s with pc := (s.pc + 2) % 65536 } else s) := by
  simp only [decode_and_execute]
  rw [if_neg (fun hc => by omega), if_neg (by omega), if_neg (by intro hc; omega), if_neg (fun hc => by omega),
    if_neg (by omega), if_pos ⟨h1, h2⟩]

/-- Equation for the `0x5000..=0x5FF0` (skip if Vx = Vy) arm. -/
theorem decode_eq_5xy0 (rnd : Nat) (s : Cpu) (op : Nat)
    (h1 : 0x5000 ≤ op) (h2 : op ≤ 0x5FF0) :
    decode_and_execute rnd s op =
      some (if s.registers.get ((op &&& 0x0F00) >>> 8) = s.registers.get ((op &&& 0x00F0) >>> 4)
            then { s with pc := (s.pc + 2) % 65536 } else s) := by
  simp only [decode_and_execute]
  rw [if_neg (by intro hc; omega), if_neg (fun hc => by omega), if_neg (by omega), if_neg (by intro hc; omega),
    if_neg (fun hc => by omega), if_neg (by omega), if_pos ⟨h1, h2⟩]

/-- Equation for the `0x8000..=0x8FFE` (arithmetic family) arm. -/
theorem decode_eq_8xyk (rnd : Nat) (s : Cpu) (op : Nat)
    (h1 : 0x8000 ≤ op) (h2 : op ≤ 0x8FFE) :
    decode_and_execute rnd s op =
      some (execArith s ((op &&& 0x0F00) >>> 8) ((op &&& 0x00F0) >>> 4) (op &&& 0x000F)) := by
  simp only [decode_and_execute]
  rw [if_neg (by intro hc; omega), if_neg (fun hc => by omega), if_neg (by omega), if_neg (by intro hc; omega),
    if_neg (fun hc => by omega), if_neg (by omega), if_neg (by intro hc; omega), if_neg (fun hc => by omega),
    if_neg (by omega), if_pos ⟨h1, h2⟩]

/-- Equation for the `0x9000..=0x9FF0` (skip if Vx not Vy) arm. -/
theorem decode_eq_9xy0 (rnd : Nat) (s : Cpu) (op : Nat)
    (h1 : 0x9000 ≤ op) (h2 : op ≤ 0x9FF0) :
    decode_and_execute rnd s op =
      some (if s.registers.get ((op &&& 0x0F00) >>> 8) ≠ s.registers.get ((op &&& 0x00F0) >>> 4)
            then { s with pc := (s.pc + 2) % 65536 } else s) := by
  simp only [decode_and_execute]
  rw [if_neg (by intro hc; omega), if_neg (fun hc => by omega), if_neg (by omega), if_neg (by intro hc; omega),
    if_neg (fun hc => by omega), if_neg (by omega), if_neg (by intro hc; omega), if_neg (fun hc => by omega),
    if_neg (by omega), if_neg (by intro hc; omega), if_pos ⟨h1, h2⟩]

/-- Equation for the `0xC000..=0xCFFF` (random) arm. -/
theorem decode_eq_Cxkk (rnd : Nat) (s : Cpu) (op : Nat)
    (h1 : 0xC000 ≤ op) (h2 : op ≤ 0xCFFF) :
    decode_and_execute rnd s op =
      some { s with registers :=
        s.registers.set ((op &&& 0x0F00) >>> 8) (genRange 0 255 rnd &&& (op &&& 0x00FF)) } := by
  simp only [decode_and_execute]
  rw [if_neg (fun hc => by omega), if_neg (by omega), if_neg (by intro hc; omega), if_neg (fun hc => by omega),
    if_neg (by omega), if_neg (by intro hc; omega), if_neg (fun hc => by omega), if_neg (by omega),
    if_neg (by intro hc; omega), if_neg (fun hc => by omega), if_neg (by omega), if_neg (by intro hc; omega),
    if_neg (fun hc => by omega), if_pos ⟨h1, h2⟩]

/-- Equation for the `0xD000..=0xDFFF` (draw) arm. -/
theorem decode_eq_Dxyn (rnd : Nat) (s : Cpu) (op : Nat)
    (h1 : 0xD000 ≤ op) (h2 : op ≤ 0xDFFF) :
    decode_and_execute rnd s op =
      execDraw s ((op &&& 0x0F00) >>> 8) ((op &&& 0x00F0) >>> 4) (op &&& 0x000F) := by
  simp only [decode_and_execute]
  rw [if_neg (by omega), if_neg (by intro hc; omega), if_neg (fun hc => by omega), if_neg (by omega),
    if_neg (by intro hc; omega), if_neg (fun hc => by omega), if_neg (by omega), if_neg (by intro hc; omega),
    if_neg (fun hc => by omega), if_neg (by omega), if_neg (by intro hc; omega), if_neg (fun hc => by omega),
    if_neg (by omega), if_neg (by intro hc; omega), if_pos ⟨h1, h2⟩]

/-- Equation for the `0xE000..=0xEFFF` (key skip family) arm. -/
theorem decode_eq_Exkk (rnd : Nat) (s : Cpu) (op : Nat)
    (h1 : 0xE000 ≤ op) (h2 : op ≤ 0xEFFF) :
    decode_and_execute rnd s op =
      execKey s ((op &&& 0x0F00) >>> 8) (op &&& 0x00FF) := by
  simp only [decode_and_execute]
  rw [if_neg (fun hc => by omega), if_neg (by omega), if_neg (by intro hc; omega), if_neg (fun hc => by omega),
    if_neg (by omega), if_neg (by intro hc; omega), if_neg (fun hc => by omega), if_neg (by omega),
    if_neg (by intro hc; omega), if_neg (fun hc => by omega), if_neg (by omega), if_neg (by intro hc; omega),
    if_neg (fun hc => by omega), if_neg (by omega), if_neg (by intro hc; omega), if_pos ⟨h1, h2⟩]

/-- Equation for the `0xF007..=0xFF65` (timers, keys, memory family) arm. -/
theorem decode_eq_Fxkk (rnd : Nat) (s : Cpu) (op : Nat)
    (h1 : 0xF007 ≤ op) (h2 : op ≤ 0xFF65) :
    decode_and_execute rnd s op =
      execF s ((op &&& 0x0F00) >>> 8) (op &&& 0x00FF) := by
  simp only [decode_and_execute]
  rw [if_neg (fun hc => by omega), if_neg (by omega), if_neg (by intro hc; omega), if_neg (fun hc => by omega),
    if_neg (by omega), if_neg (by intro hc; omega), if_neg (fun hc => by omega), if_neg (by omega),
    if_neg (by intro hc; omega), if_neg (fun hc => by omega), if_neg (by omega), if_neg (by intro hc; omega),
    if_neg (fun hc => by omega), if_neg (by omega), if_neg (by intro hc; omega), if_neg (fun hc => by omega),
    if_pos ⟨h1, h2⟩]

/-- Equation for the `0x00E0` (clear display) arm. -/
theorem decode_eq_00E0 (rnd : Nat) (s : Cpu) :
    decode_and_execute rnd s 0x00E0 = some { s with display := s.display.clear } := by
  rfl

/-- Equation for the `0x1000..=0x1FFF` (jump) arm. -/
theorem decode_eq_1nnn (rnd : Nat) (s : Cpu) (op : Nat)
    (h1 : 0x1000 ≤ op) (h2 : op ≤ 0x1FFF) :
    decode_and_execute rnd s op = some { s with pc := op &&& 0x0FFF } := by
  simp only [decode_and_execute]
  rw [if_neg (by omega), if_neg (by intro hc; omega), if_pos ⟨h1, h2⟩]

/-- Equation for the `0x6000..=0x6FFF` (load immediate) arm. -/
theorem decode_eq_6xkk (rnd : Nat) (s : Cpu) (op : Nat)
    (h1 : 0x6000 ≤ op) (h2 : op ≤ 0x6FFF) :
    decode_and_execute rnd s op =
      some { s with registers := s.registers.set ((op &&& 0x0F00) >>> 8) (op &&& 0x00FF) } := by
  simp only [decode_and_execute]
  rw [if_neg (fun hc => by omega), if_neg (by omega), if_neg (by intro hc; omega), if_neg (fun hc => by omega),
    if_neg (by omega), if_neg (by intro hc; omega), if_neg (fun hc => by omega), if_pos ⟨h1, h2⟩]

/-- Equation for the `0x7000..=0x7FFF` (add immediate) arm. -/
theorem decode_eq_7xkk (rnd : Nat) (s : Cpu) (op : Nat)
    (h1 : 0x7000 ≤ op) (h2 : op ≤ 0x7FFF) :
    decode_and_execute rnd s op =
      some { s with registers := (s.registers.set ((op &&& 0x0F00) >>> 8)
        ((s.registers.get ((op &&& 0x0F00) >>> 8) + (op &&& 0x00FF)) % 256)) } := by
  simp only [decode_and_execute]
  rw [if_neg (by omega), if_neg (by intro hc; omega), if_neg (fun hc => by omega), if_neg (by omega),
    if_neg (by intro hc; omega), if_neg (fun hc => by omega), if_neg (by omega), if_neg (by intro hc; omega),
    if_pos ⟨h1, h2⟩]

/-- Equation for the `0xA000..=0xAFFF` (load I) arm. -/
theorem decode_eq_Annn (rnd : Nat) (s : Cpu) (op : Nat)
    (h1 : 0xA000 ≤ op) (h2 : op ≤ 0xAFFF) :
    decode_and_execute rnd s op = some { s with i := op &&& 0x0FFF } := by
  simp only [decode_and_execute]
  rw [if_neg (fun hc => by omega), if_neg (by omega), if_neg (by intro hc; omega), if_neg (fun hc => by omega),
    if_neg (by omega), if_neg (by intro hc; omega), if_neg (fun hc => by omega), if_neg (by omega),
    if_neg (by intro hc; omega), if_neg (fun hc => by omega), if_neg (by omega), if_pos ⟨h1, h2⟩]

/-- Equation for the `0xB000..=0xBFFF` (jump plus V0) arm. -/
theorem decode_eq_Bnnn (rnd : Nat) (s : Cpu) (op : Nat)
    (h1 : 0xB000 ≤ op) (h2 : op ≤ 0xBFFF) :
    decode_and_execute rnd s op =
      some { s with pc := (op &&& 0x0FFF) + s.registers.get 0 } := by
  simp only [decode_and_execute]
  rw [if_neg (by intro hc; omega), if_neg (fun hc => by omega), if_neg (by omega), if_neg (by intro hc; omega),
    if_neg (fun hc => by omega), if_neg (by omega), if_neg (by intro hc; omega), if_neg (fun hc => by omega),
    if_neg (by omega), if_neg (by intro hc; omega), if_neg (fun hc => by omega), if_neg (by omega),
    if_pos ⟨h1, h2⟩]

/-- Unfolding one cycle once the fetched opcode is known. -/
theorem cycle_eq_of_fetch (rnd : Nat) (s : Cpu) (op : Nat)
    (hf : Cpu.fetch s s.pc = some op) :
    cycle rnd s = decode_and_execute rnd { s with pc := (s.pc + 2) % 65536 } op := by
  unfold cycle
  rw [hf]
  rfl

/-- The entropy parameter is consumed only by the `Cxkk` arm. -/
theorem decode_rnd_irrelevant (s : Cpu) (op r1 r2 : Nat)
    (h : ¬ (0xC000 ≤ op ∧ op ≤ 0xCFFF)) :
    decode_and_execute r1 s op = decode_and_execute r2 s op := by
  rcases em (matchedOpcode op) with hm | hm
  · simp only [matchedOpcode] at hm
    rcases hm with h0 | h0 | h0 | h0 | h0 | h0 | h0 | h0 | h0 | h0 | h0 | h0 | h0 | h0 | h0 | h0 | h0
    · subst h0; rw [decode_eq_00E0, decode_eq_00E0]
    · subst h0; rw [decode_eq_00EE, decode_eq_00EE]
    · rw [decode_eq_1nnn r1 s op h0.1 h0.2, decode_eq_1nnn r2 s op h0.1 h0.2]
    · rw [decode_eq_2nnn r1 s op h0.1 h0.2, decode_eq_2nnn r2 s op h0.1 h0.2]
    · rw [decode_eq_3xkk r1 s op h0.1 h0.2, decode_eq_3xkk r2 s op h0.1 h0.2]
    · rw [decode_eq_4xkk r1 s op h0.1 h0.2, decode_eq_4xkk r2 s op h0.1 h0.2]
    · rw [decode_eq_5xy0 r1 s op h0.1 h0.2, decode_eq_5xy0 r2 s op h0.1 h0.2]
    · rw [decode_eq_6xkk r1 s op h0.1 h0.2, decode_eq_6xkk r2 s op h0.1 h0.2]
    · rw [decode_eq_7xkk r1 s op h0.1 h0.2, decode_eq_7xkk r2 s op h0.1 h0.2]
    · rw [decode_eq_8xyk r1 s op h0.1 h0.2, decode_eq_8xyk r2 s op h0.1 h0.2]
    · rw [decode_eq_9xy0 r1 s op h0.1 h0.2, decode_eq_9xy0 r2 s op h0.1 h0.2]
    · rw [decode_eq_Annn r1 s op h0.1 h0.2, decode_eq_Annn r2 s op h0.1 h0.2]
    · rw [decode_eq_Bnnn r1 s op h0.1 h0.2, decode_eq_Bnnn r2 s op h0.1 h0.2]
    · exact absurd h0 h
    · rw [decode_eq_Dxyn r1 s op h0.1 h0.2, decode_eq_Dxyn r2 s op h0.1 h0.2]
    · rw [decode_eq_Exkk r1 s op h0.1 h0.2, decode_eq_Exkk r2 s op h0.1 h0.2]
    · rw [decode_eq_Fxkk r1 s op h0.1 h0.2, decode_eq_Fxkk r2 s op h0.1 h0.2]
  · rw [decode_unmatched_none r1 s op hm, decode_unmatched_none r2 s op hm]

/-- A fresh Cpu over zeroed memory and a blank display. -/
def cpu0 : Cpu := Cpu.new Memory.new Display.new

/-- C1: the memory array is allocated with 0xFFF = 4095 cells, so address
4095 = 0xFFF (which is < 4096 and must be readable per the claim) is already
a fatal bounds violation, while addresses below 4095 succeed. -/
theorem memory_bounds_off_by_one (m : Memory) (a v : Nat) :
    (a < 4095 → (Memory.read_u8 m a).isSome = true ∧ (Memory.write_u8 m a v).isSome = true) ∧
    Memory.read_u8 m 4095 = none ∧ Memory.write_u8 m 4095 v = none ∧ 4095 < 4096 := by
  refine ⟨fun h => ⟨?_, ?_⟩, ?_, ?_, by omega⟩
  · simp [Memory.read_u8, h]
  · simp [Memory.write_u8, h]
  · simp [Memory.read_u8]
  · simp [Memory.write_u8]

/-- Witness for `memory_bounds_off_by_one` at address 0x200. -/
theorem memory_bounds_off_by_one_witness :
    (Memory.read_u8 Memory.new 0x200).isSome = true ∧ Memory.read_u8 Memory.new 4095 = none :=
  ⟨((memory_bounds_off_by_one Memory.new 0x200 0).1 (by norm_num)).1,
   (memory_bounds_off_by_one Memory.new 0x200 0).2.1⟩

/-- State with V0 = 0 and V1 = 1, exercising the 8xy7 handler. -/
def cpu8xy7 : Cpu :=
  { cpu0 with registers := (cpu0.registers.set 0 0).set 1 1 }

/-- C4: executing 8017 with V0 = 0 and V1 = 1 sets V0 to 1 but leaves VF = 0,
because the source compares Vy with the freshly written Vx = Vy - Vx instead
of the pre-subtraction values; the claim (and the spec table) require
VF = 1 here since Vy = 1 > Vx = 0 before the subtraction. -/
theorem sub8xy7_flag_evaluated_after_subtraction :
    Option.map (fun t => (t.registers.get 0, t.registers.get 15))
      (decode_and_execute 0 cpu8xy7 0x8017) = some (1, 0) := by
  rfl

/-- C5: the `Cxkk` arm calls `gen_range(0, 255)`, whose upper bound is
exclusive: the sampled byte is `rnd % 255`, so 255 is impossible while every
value 0..254 is attained (at entropy `rnd = v`).  The claim requires the full
range [0, 255]. -/
theorem cxkk_random_range_excludes_255 :
    (∀ (s : Cpu) (rnd : Nat),
        decode_and_execute rnd s 0xC0FF =
          some { s with registers := s.registers.set 0 (genRange 0 255 rnd &&& 0xFF) }) ∧
    (∀ rnd : Nat, genRange 0 255 rnd &&& 0xFF = rnd % 255 ∧ rnd % 255 < 255) ∧
    (∀ v : Nat, v < 255 → genRange 0 255 v &&& 0xFF = v) := by
  have hand : ∀ w : Nat, w < 256 → w &&& 255 = w := by
    intro w hw
    have h := Nat.and_pow_two_sub_one_eq_mod w 8
    norm_num at h
    rw [h]
    omega
  refine ⟨?_, ?_, ?_⟩
  · intro s rnd
    rw [decode_eq_Cxkk rnd s 0xC0FF (by norm_num) (by norm_num)]
    rfl
  · intro rnd
    have h1 : genRange 0 255 rnd = rnd % 255 := by simp [genRange]
    have h2 : rnd % 255 < 255 := Nat.mod_lt _ (by norm_num)
    rw [h1, hand _ (by omega)]
    exact ⟨rfl, h2⟩
  · intro v hv
    have h1 : genRange 0 255 v = v := by simp [genRange, Nat.mod_eq_of_lt hv]
    rw [h1, hand _ (by omega)]

/-- Witness for `cxkk_random_range_excludes_255`: value 254 is attained and
the sample at entropy 7 stays below 255. -/
theorem cxkk_random_range_excludes_255_witness :
    genRange 0 255 254 &&& 0xFF = 254 ∧ 7 % 255 < 255 :=
  ⟨cxkk_random_range_excludes_255.2.2 254 (by norm_num),
   (cxkk_random_range_excludes_255.2.1 7).2⟩

/-- C3 counterexample: opcode 0x8008 (an 8xyk instruction whose low nibble 8
belongs to no family of the table) is executed as a silent no-op instead of
faulting: the interpreter returns the unchanged state, not the fatal fault. -/
theorem unknown_8xy8_silently_ignored :
    decode_and_execute 0 cpu0 0x8008 = some cpu0 ∧
    decode_and_execute 0 cpu0 0x8008 ≠ none := by
  refine ⟨rfl, ?_⟩
  intro h
  rw [show decode_and_execute 0 cpu0 0x8008 = some cpu0 from rfl] at h
  exact Option.noConfusion h

/-- C3 amended: only opcodes matched by no top-level family range (the
wildcard arm of the dispatcher) fault fatally; opcodes inside the 8xxx, Exxx
or Fxxx ranges whose sub-operation is unrecognized (such as 0x8008, 0xE000,
0xF108) are silently ignored, leaving the state unchanged. -/
theorem unsupported_opcode_fault_characterization :
    (∀ (rnd : Nat) (s : Cpu) (op : Nat),
        ¬ matchedOpcode op → decode_and_execute rnd s op = none) ∧
    (∀ (rnd : Nat) (s : Cpu),
        decode_and_execute rnd s 0x8008 = some s ∧
        decode_and_execute rnd s 0xE000 = some s ∧
        decode_and_execute rnd s 0xF108 = some s) := by
  constructor
  · exact fun rnd s op h => decode_unmatched_none rnd s op h
  · intro rnd s
    refine ⟨?_, ?_, ?_⟩
    · rw [decode_eq_8xyk rnd s 0x8008 (by norm_num) (by norm_num)]
      rfl
    · rw [decode_eq_Exkk rnd s 0xE000 (by norm_num) (by norm_num)]
      rfl
    · rw [decode_eq_Fxkk rnd s 0xF108 (by norm_num) (by norm_num)]
      rfl

/-- Witness for `unsupported_opcode_fault_characterization`: opcode 0x0001
matches no arm and faults, opcode 0xF108 is silently ignored. -/
theorem unsupported_opcode_fault_characterization_witness :
    decode_and_execute 0 cpu0 0x0001 = none ∧ decode_and_execute 0 cpu0 0xF108 = some cpu0 :=
  ⟨unsupported_opcode_fault_characterization.1 0 cpu0 0x0001
      (by intro h; simp only [matchedOpcode] at h; omega),
   (unsupported_opcode_fault_characterization.2 0 cpu0).2.2⟩

/-- C10: outside the Cxkk family a step is deterministic: on equal states,
and whatever bytes the random source would supply, one cycle produces equal
results. -/
theorem step_deterministic_outside_Cxkk :
    ∀ (s1 s2 : Cpu) (r1 r2 op : Nat), s1 = s2 → Cpu.fetch s1 s1.pc = some op →
      ¬ (0xC000 ≤ op ∧ op ≤ 0xCFFF) → cycle r1 s1 = cycle r2 s2 := by
  rintro s1 s2 r1 r2 op rfl hf hop
  rw [cycle_eq_of_fetch r1 s1 op hf, cycle_eq_of_fetch r2 s1 op hf]
  exact decode_rnd_irrelevant _ _ _ _ hop

/-- Witness for `step_deterministic_outside_Cxkk` on the fresh state (whose
fetched opcode is 0x0000). -/
theorem step_deterministic_outside_Cxkk_witness :
    cycle 0 cpu0 = cycle 1 cpu0 :=
  step_deterministic_outside_Cxkk cpu0 cpu0 0 1 0 rfl rfl (by decide)


/-- C6: call/return round-trip.  From PC = 0x200 at any stack depth d < 16,
with the call 0x2312 stored at 0x200 and the return 0x00EE stored at its
target 0x312, executing one cycle (the call) and then another (the return)
yields PC = 0x202 - the address following the call - and restores the stack
pointer to its pre-call depth d. -/
theorem call_return_round_trip (s : Cpu) (r1 r2 d : Nat)
    (hpc : s.pc = 0x200) (hsp : s.sp = d) (hd : d < 16)
    (hm1 : s.memory.memory 0x200 = 0x23) (hm2 : s.memory.memory 0x201 = 0x12)
    (hm3 : s.memory.memory 0x312 = 0x00) (hm4 : s.memory.memory 0x313 = 0xEE) :
    Option.map Cpu.pc ((cycle r1 s).bind (cycle r2)) = some 0x202 ∧
    Option.map Cpu.sp ((cycle r1 s).bind (cycle r2)) = some d := by
  have hf1 : Cpu.fetch s s.pc = some 0x2312 := by
    simp [Cpu.fetch, Memory.read_u16, hpc, hm1, hm2]
  have hstep1 : cycle r1 s = some { s with pc := 0x312, sp := s.sp + 1, stack := fun j => if j = s.sp then 0x202 else s.stack j } := by
    rw [cycle_eq_of_fetch r1 s 0x2312 hf1,
        decode_eq_2nnn r1 _ 0x2312 (by norm_num) (by norm_num)]
    rw [if_pos (show s.sp < 16 by omega)]
    simp [hpc]
    decide
  have hstep2 : cycle r2 { s with pc := 0x312, sp := s.sp + 1, stack := fun j => if j = s.sp then 0x202 else s.stack j } = some { s with pc := 0x202, sp := s.sp, stack := fun j => if j = s.sp then 0x202 else s.stack j } := by
    have hf2 : Cpu.fetch { s with pc := 0x312, sp := s.sp + 1, stack := fun j => if j = s.sp then 0x202 else s.stack j } 0x312 = some 0x00EE := by
      simp [Cpu.fetch, Memory.read_u16, hm3, hm4]
    rw [cycle_eq_of_fetch r2 _ 0x00EE hf2, decode_eq_00EE]
    rw [if_pos (show 1 ≤ s.sp + 1 ∧ s.sp + 1 - 1 < 16 by omega)]
    simp
  rw [hstep1]
  simp only [Option.some_bind]
  rw [hstep2]
  simp [hsp]

/-- Memory image holding the call 0x2312 at 0x200 and the return 0x00EE at
0x312, as in the round-trip scenario. -/
def cpuCall : Cpu :=
  Cpu.new (memWith [(0x200, 0x23), (0x201, 0x12), (0x312, 0x00), (0x313, 0xEE)]) Display.new

/-- Witness for `call_return_round_trip` at stack depth 0. -/
theorem call_return_round_trip_witness :
    Option.map Cpu.pc ((cycle 0 cpuCall).bind (cycle 0)) = some 0x202 ∧
    Option.map Cpu.sp ((cycle 0 cpuCall).bind (cycle 0)) = some 0 :=
  call_return_round_trip cpuCall 0 0 0 rfl rfl (by norm_num) rfl rfl rfl rfl

/-- A successful fetch needs both byte addresses inside the memory array. -/
theorem fetch_bound (s : Cpu) (loc op : Nat) (h : Cpu.fetch s loc = some op) :
    loc + 1 < 4095 := by
  by_cases h1 : loc < 4095
  · by_cases h2 : loc + 1 < 4095
    · exact h2
    · exfalso
      simp [Cpu.fetch, Memory.read_u16, h1, h2] at h
  · exfalso
    simp [Cpu.fetch, Memory.read_u16, h1] at h

/-- The six skip opcodes of the claim: 3xkk, 4xkk, 5xy0, 9xy0, Ex9E, ExA1. -/
def isSkipOpcode (op : Nat) : Prop :=
  (0x3000 ≤ op ∧ op ≤ 0x3FFF) ∨ (0x4000 ≤ op ∧ op ≤ 0x4FFF) ∨
  (0x5000 ≤ op ∧ op ≤ 0x5FF0 ∧ op &&& 0x000F = 0) ∨
  (0x9000 ≤ op ∧ op ≤ 0x9FF0 ∧ op &&& 0x000F = 0) ∨
  (0xE000 ≤ op ∧ op ≤ 0xEFFF ∧ (op &&& 0x00FF = 0x9E ∨ op &&& 0x00FF = 0xA1))

/-- The skip condition of each skip opcode, read off the machine state. -/
def skipCond (s : Cpu) (op : Nat) : Prop :=
  if op ≤ 0x3FFF then s.registers.get ((op &&& 0x0F00) >>> 8) = op &&& 0x00FF
  else if op ≤ 0x4FFF then s.registers.get ((op &&& 0x0F00) >>> 8) ≠ op &&& 0x00FF
  else if op ≤ 0x5FF0 then
    s.registers.get ((op &&& 0x0F00) >>> 8) = s.registers.get ((op &&& 0x00F0) >>> 4)
  else if op ≤ 0x9FF0 then
    s.registers.get ((op &&& 0x0F00) >>> 8) ≠ s.registers.get ((op &&& 0x00F0) >>> 4)
  else if op &&& 0x00FF = 0x9E then
    s.keys.keys (s.registers.get ((op &&& 0x0F00) >>> 8)) = true
  else
    s.keys.keys (s.registers.get ((op &&& 0x0F00) >>> 8)) = false

/-- State whose next instruction is 0xE09E (skip if key V0 pressed) with
V0 = 16: the key lookup indexes `keys[16]`, out of bounds. -/
def cpuKeyFault : Cpu :=
  { Cpu.new (memWith [(0x200, 0xE0), (0x201, 0x9E)]) Display.new with
    registers := Registers.set (fun _ => 0) 0 16 }

/-- C7 counterexample: on `cpuKeyFault` the fetched instruction is the skip
opcode Ex9E, yet the step neither advances PC by 4 nor by 2: it aborts
fatally (the key index V0 = 16 is out of bounds), so the claim fails for
this machine state. -/
theorem skip_opcode_key_fault :
    Cpu.fetch cpuKeyFault cpuKeyFault.pc = some 0xE09E ∧ cycle 0 cpuKeyFault = none := by
  constructor <;> rfl

/-- C7 amended: whenever a step on a skip opcode completes without fault
(for Ex9E/ExA1 this excludes states with Vx >= 16, where the key lookup
aborts), PC advances by exactly 4 when the skip condition holds and by
exactly 2 when it does not. -/
theorem skip_opcodes_advance_pc (s s' : Cpu) (rnd op : Nat)
    (hf : Cpu.fetch s s.pc = some op) (hskip : isSkipOpcode op)
    (hc : cycle rnd s = some s') :
    (skipCond s op → s'.pc = s.pc + 4) ∧ (¬ skipCond s op → s'.pc = s.pc + 2) := by
  have hb : s.pc + 1 < 4095 := fetch_bound s s.pc op hf
  have h2 : (s.pc + 2) % 65536 = s.pc + 2 := by omega
  rw [cycle_eq_of_fetch rnd s op hf, h2] at hc
  rcases hskip with h3 | h4 | h5 | h9 | hE
  · rw [decode_eq_3xkk rnd _ op h3.1 h3.2] at hc
    injection hc with hc
    subst hc
    constructor
    · intro hcond
      have hcnd : s.registers.get ((op &&& 0x0F00) >>> 8) = op &&& 0x00FF := by
        simp only [skipCond] at hcond
        rwa [if_pos h3.2] at hcond
      rw [if_pos hcnd]
      show (s.pc + 2 + 2) % 65536 = s.pc + 4
      omega
    · intro hn
      have hcnd : ¬ s.registers.get ((op &&& 0x0F00) >>> 8) = op &&& 0x00FF := by
        intro hcnd
        exact hn (by simp only [skipCond]; rwa [if_pos h3.2])
      rw [if_neg hcnd]
  · rw [decode_eq_4xkk rnd _ op h4.1 h4.2] at hc
    injection hc with hc
    subst hc
    constructor
    · intro hcond
      have hcnd : s.registers.get ((op &&& 0x0F00) >>> 8) ≠ op &&& 0x00FF := by
        simp only [skipCond] at hcond
        rw [if_neg (by intro hc; omega), if_pos h4.2] at hcond
        exact hcond
      rw [if_pos hcnd]
      show (s.pc + 2 + 2) % 65536 = s.pc + 4
      omega
    · intro hn
      have hcnd : ¬ s.registers.get ((op &&& 0x0F00) >>> 8) ≠ op &&& 0x00FF := by
        intro hcnd
        refine hn ?_
        simp only [skipCond]
        rw [if_neg (fun hc => by omega), if_pos h4.2]
        exact hcnd
      rw [if_neg hcnd]
  · rw [decode_eq_5xy0 rnd _ op h5.1 h5.2.1] at hc
    injection hc with hc
    subst hc
    constructor
    · intro hcond
      have hcnd : s.registers.get ((op &&& 0x0F00) >>> 8) =
          s.registers.get ((op &&& 0x00F0) >>> 4) := by
        simp only [skipCond] at hcond
        rw [if_neg (by omega), if_neg (by intro hc; omega), if_pos h5.2.1] at hcond
        exact hcond
      rw [if_pos hcnd]
      show (s.pc + 2 + 2) % 65536 = s.pc + 4
      omega
    · intro hn
      have hcnd : ¬ s.registers.get ((op &&& 0x0F00) >>> 8) =
          s.registers.get ((op &&& 0x00F0) >>> 4) := by
        intro hcnd
        refine hn ?_
        simp only [skipCond]
        rw [if_neg (fun hc => by omega), if_neg (by omega), if_pos h5.2.1]
        exact hcnd
      rw [if_neg hcnd]
  · rw [decode_eq_9xy0 rnd _ op h9.1 h9.2.1] at hc
    injection hc with hc
    subst hc
    constructor
    · intro hcond
      have hcnd : s.registers.get ((op &&& 0x0F00) >>> 8) ≠
          s.registers.get ((op &&& 0x00F0) >>> 4) := by
        simp only [skipCond] at hcond
        rw [if_neg (by intro hc; omega), if_neg (fun hc => by omega), if_neg (by omega),
          if_pos h9.2.1] at hcond
        exact hcond
      rw [if_pos hcnd]
      show (s.pc + 2 + 2) % 65536 = s.pc + 4
      omega
    · intro hn
      have hcnd : ¬ s.registers.get ((op &&& 0x0F00) >>> 8) ≠
          s.registers.get ((op &&& 0x00F0) >>> 4) := by
        intro hcnd
        refine hn ?_
        simp only [skipCond]
        rw [if_neg (by intro hc; omega), if_neg (fun hc => by omega), if_neg (by omega), if_pos h9.2.1]
        exact hcnd
      rw [if_neg hcnd]
  · rw [decode_eq_Exkk rnd _ op hE.1 hE.2.1] at hc
    have hscEq : ∀ b : Bool,
        s.keys.keys (s.registers.get ((op &&& 0x0F00) >>> 8)) = b →
        (skipCond s op ↔ (if op &&& 0x00FF = 0x9E then b = true else b = false)) := by
      intro b hkey
      simp only [skipCond]
      rw [if_neg (by intro hc; omega), if_neg (fun hc => by omega), if_neg (by omega), if_neg (by intro hc; omega)]
      rcases hE.2.2 with h9E | hA1
      · rw [if_pos h9E, if_pos h9E, hkey]
      · rw [if_neg (fun hc => by omega), if_neg (by omega), hkey]
    rcases hkopt : Keys.is_pressed s.keys (s.registers.get ((op &&& 0x0F00) >>> 8))
      with _ | pressed
    · exfalso
      rcases hE.2.2 with h9E | hA1
      · rw [show op &&& 0x00FF = 0x9E from h9E] at hc
        simp only [execKey] at hc
        rw [if_pos trivial] at hc
        rw [hkopt] at hc
        simp at hc
      · rw [show op &&& 0x00FF = 0xA1 from hA1] at hc
        simp only [execKey] at hc
        rw [if_pos trivial] at hc
        rw [hkopt] at hc
        simp at hc
    · have hkey : s.keys.keys (s.registers.get ((op &&& 0x0F00) >>> 8)) = pressed := by
        by_cases hlt : s.registers.get ((op &&& 0x0F00) >>> 8) < 16
        · simp [Keys.is_pressed, hlt] at hkopt
          exact hkopt
        · simp [Keys.is_pressed, hlt] at hkopt
      have hsc := hscEq pressed hkey
      rcases hE.2.2 with h9E | hA1
      · rw [show op &&& 0x00FF = 0x9E from h9E] at hc
        simp only [execKey] at hc
        rw [if_pos trivial] at hc
        rw [hkopt] at hc
        simp only [Option.bind_eq_bind', Option.some_bind] at hc
        rw [if_pos h9E] at hsc
        cases pressed
        · rw [if_neg (by simp)] at hc
          injection hc with hc
          subst hc
          constructor
          · intro hcond
            exact absurd (hsc.mp hcond) (by simp)
          · intro hn
            rfl
        · rw [if_pos rfl] at hc
          injection hc with hc
          subst hc
          constructor
          · intro hcond
            show (s.pc + 2 + 2) % 65536 = s.pc + 4
            omega
          · intro hn
            exact absurd (hsc.mpr rfl) hn
      · rw [show op &&& 0x00FF = 0xA1 from hA1] at hc
        simp only [execKey] at hc
        rw [if_pos trivial] at hc
        rw [hkopt] at hc
        simp only [Option.bind_eq_bind', Option.some_bind] at hc
        rw [if_neg (by intro hc; omega)] at hsc
        cases pressed
        · rw [if_neg (by simp)] at hc
          injection hc with hc
          subst hc
          constructor
          · intro hcond
            show (s.pc + 2 + 2) % 65536 = s.pc + 4
            omega
          · intro hn
            exact absurd (hsc.mpr rfl) hn
        · rw [if_pos rfl] at hc
          injection hc with hc
          subst hc
          constructor
          · intro hcond
            exact absurd (hsc.mp hcond) (by simp)
          · intro hn
            rfl

/-- State whose next instruction is 0x3144 while V1 = 0x44: the skip
condition holds. -/
def cpuSkip : Cpu :=
  { Cpu.new (memWith [(0x200, 0x31), (0x201, 0x44)]) Display.new with
    registers := Registers.set (fun _ => 0) 1 0x44 }

/-- Witness for `skip_opcodes_advance_pc`: executing 3144 with V1 = 0x44
advances PC from 0x200 to 0x204. -/
theorem skip_opcodes_advance_pc_witness :
    Option.map Cpu.pc (cycle 0 cpuSkip) = some 0x204 := by
  have hsome : (cycle 0 cpuSkip).isSome = true := rfl
  cases heq : cycle 0 cpuSkip with
  | none =>
    rw [heq] at hsome
    simp at hsome
  | some s1 =>
    have h := (skip_opcodes_advance_pc cpuSkip s1 0 0x3144 rfl
        (Or.inl ⟨by norm_num, by norm_num⟩) heq).1
        (by simp only [skipCond]; rw [if_pos (by norm_num)]; rfl)
    simp only [Option.map_some']
    rw [h]
    rfl

/-- Overwrite the waiting flag of a state. -/
def setW (b : Bool) (s : Cpu) : Cpu := { s with waiting_for_input := b }

/-- Congruence for binding the same fallible computation on both sides. -/
theorem bind_map_congr {α β γ : Type _} (e : Option α) (k1 : α → Option β)
    (k2 : α → Option γ) (f : γ → β)
    (h : ∀ a, k1 a = Option.map f (k2 a)) : e.bind k1 = Option.map f (e.bind k2) := by
  cases e <;> simp [h]

/-- The arithmetic family never reads or clears the waiting flag. -/
theorem execArith_setW (s : Cpu) (x y k : Nat) (b : Bool) :
    execArith (setW b s) x y k = setW b (execArith s x y k) := rfl

/-- The key-skip family never reads or clears the waiting flag. -/
theorem execKey_setW (s : Cpu) (x kk : Nat) (b : Bool) :
    execKey (setW b s) x kk = Option.map (setW b) (execKey s x kk) := by
  simp only [execKey, setW, Option.bind_eq_bind']
  split_ifs
  · refine bind_map_congr _ _ _ _ fun pressed => ?_
    cases pressed <;> simp [setW]
  · refine bind_map_congr _ _ _ _ fun pressed => ?_
    cases pressed <;> simp [setW]
  · simp [setW]

/-- The draw handler never reads or clears the waiting flag. -/
theorem execDraw_setW (s : Cpu) (x y n : Nat) (b : Bool) :
    execDraw (setW b s) x y n = Option.map (setW b) (execDraw s x y n) := by
  unfold execDraw
  simp only [setW, Option.bind_eq_bind']
  split_ifs
  · refine bind_map_congr _ _ _ _ fun p => ?_
    rcases p with ⟨regs1, d1⟩
    simp [setW]
  · rfl

/-- The F family only ever sets the waiting flag (in its 0x0A arm). -/
theorem execF_setW (s : Cpu) (x kk : Nat) (b : Bool) :
    execF (setW b s) x kk =
      Option.map (fun t => setW (b || t.waiting_for_input) t) (execF (setW false s) x kk) := by
  by_cases h07 : kk = 0x07
  · subst h07
    simp only [execF, setW, Option.bind_eq_bind']
    norm_num
  by_cases h0A : kk = 0x0A
  · subst h0A
    simp only [execF, setW, Option.bind_eq_bind']
    norm_num
  by_cases h15 : kk = 0x15
  · subst h15
    simp only [execF, setW, Option.bind_eq_bind']
    norm_num
  by_cases h18 : kk = 0x18
  · subst h18
    simp only [execF, setW, Option.bind_eq_bind']
    norm_num
  by_cases h1E : kk = 0x1E
  · subst h1E
    simp only [execF, setW, Option.bind_eq_bind']
    norm_num
  by_cases h29 : kk = 0x29
  · subst h29
    simp only [execF, setW, Option.bind_eq_bind']
    norm_num
  by_cases h33 : kk = 0x33
  · subst h33
    simp only [execF, setW, Option.bind_eq_bind']
    norm_num
  by_cases h55 : kk = 0x55
  · subst h55
    simp only [execF, setW, Option.bind_eq_bind']
    norm_num
  by_cases h65 : kk = 0x65
  · subst h65
    simp only [execF, setW, Option.bind_eq_bind']
    norm_num
  simp [execF, setW, h07, h0A, h15, h18, h1E, h29, h33, h55, h65]

/-- No opcode handler reads the waiting flag: executing from a state with
flag `b` yields the same result as from flag `false`, with the flag of the
outcome ORed with `b`. -/
theorem decode_waiting_independent (rnd : Nat) (s : Cpu) (op : Nat) (b : Bool) :
    decode_and_execute rnd (setW b s) op =
      Option.map (fun t => setW (b || t.waiting_for_input) t)
        (decode_and_execute rnd (setW false s) op) := by
  rcases em (matchedOpcode op) with hm | hm
  · simp only [matchedOpcode] at hm
    rcases hm with h0 | h0 | h0 | h0 | h0 | h0 | h0 | h0 | h0 | h0 | h0 | h0 | h0 | h0 | h0 | h0 | h0
    · subst h0
      rw [decode_eq_00E0, decode_eq_00E0]
      simp [setW]
    · subst h0
      rw [decode_eq_00EE, decode_eq_00EE]
      simp only [setW]
      by_cases hsp : 1 ≤ s.sp ∧ s.sp - 1 < 16 <;> simp [hsp]
    · rw [decode_eq_1nnn rnd _ op h0.1 h0.2, decode_eq_1nnn rnd _ op h0.1 h0.2]
      simp [setW]
    · rw [decode_eq_2nnn rnd _ op h0.1 h0.2, decode_eq_2nnn rnd _ op h0.1 h0.2]
      simp only [setW]
      by_cases hsp : s.sp < 16 <;> simp [hsp]
    · rw [decode_eq_3xkk rnd _ op h0.1 h0.2, decode_eq_3xkk rnd _ op h0.1 h0.2]
      simp only [setW]
      by_cases hc : s.registers.get ((op &&& 0x0F00) >>> 8) = op &&& 0x00FF <;> simp [hc]
    · rw [decode_eq_4xkk rnd _ op h0.1 h0.2, decode_eq_4xkk rnd _ op h0.1 h0.2]
      simp only [setW]
      by_cases hc : s.registers.get ((op &&& 0x0F00) >>> 8) = op &&& 0x00FF <;> simp [hc]
    · rw [decode_eq_5xy0 rnd _ op h0.1 h0.2, decode_eq_5xy0 rnd _ op h0.1 h0.2]
      simp only [setW]
      by_cases hc : s.registers.get ((op &&& 0x0F00) >>> 8) =
        s.registers.get ((op &&& 0x00F0) >>> 4) <;> simp [hc]
    · rw [decode_eq_6xkk rnd _ op h0.1 h0.2, decode_eq_6xkk rnd _ op h0.1 h0.2]
      simp [setW]
    · rw [decode_eq_7xkk rnd _ op h0.1 h0.2, decode_eq_7xkk rnd _ op h0.1 h0.2]
      simp [setW]
    · rw [decode_eq_8xyk rnd _ op h0.1 h0.2, decode_eq_8xyk rnd _ op h0.1 h0.2,
        execArith_setW, execArith_setW]
      simp [setW]
    · rw [decode_eq_9xy0 rnd _ op h0.1 h0.2, decode_eq_9xy0 rnd _ op h0.1 h0.2]
      simp only [setW]
      by_cases hc : s.registers.get ((op &&& 0x0F00) >>> 8) =
        s.registers.get ((op &&& 0x00F0) >>> 4) <;> simp [hc]
    · rw [decode_eq_Annn rnd _ op h0.1 h0.2, decode_eq_Annn rnd _ op h0.1 h0.2]
      simp [setW]
    · rw [decode_eq_Bnnn rnd _ op h0.1 h0.2, decode_eq_Bnnn rnd _ op h0.1 h0.2]
      simp [setW]
    · rw [decode_eq_Cxkk rnd _ op h0.1 h0.2, decode_eq_Cxkk rnd _ op h0.1 h0.2]
      simp [setW]
    · rw [decode_eq_Dxyn rnd _ op h0.1 h0.2, decode_eq_Dxyn rnd _ op h0.1 h0.2,
        execDraw_setW, execDraw_setW]
      cases execDraw s ((op &&& 0x0F00) >>> 8) ((op &&& 0x00F0) >>> 4) (op &&& 0x000F) <;>
        simp [setW]
    · rw [decode_eq_Exkk rnd _ op h0.1 h0.2, decode_eq_Exkk rnd _ op h0.1 h0.2,
        execKey_setW, execKey_setW]
      cases execKey s ((op &&& 0x0F00) >>> 8) (op &&& 0x00FF) <;> simp [setW]
    · rw [decode_eq_Fxkk rnd _ op h0.1 h0.2, decode_eq_Fxkk rnd _ op h0.1 h0.2]
      exact execF_setW s ((op &&& 0x0F00) >>> 8) (op &&& 0x00FF) b
  · rw [decode_unmatched_none rnd _ op hm, decode_unmatched_none rnd _ op hm]
    rfl

/-- One full cycle never reads the waiting flag either. -/
theorem cycle_waiting_independent (rnd : Nat) (s : Cpu) (b : Bool) :
    cycle rnd (setW b s) =
      Option.map (fun t => setW (b || t.waiting_for_input) t) (cycle rnd (setW false s)) := by
  cases hfo : Cpu.fetch s s.pc with
  | none =>
    have h1 : cycle rnd (setW b s) = none := by
      unfold cycle
      rw [show Cpu.fetch (setW b s) (setW b s).pc = none from hfo]
      rfl
    have h2 : cycle rnd (setW false s) = none := by
      unfold cycle
      rw [show Cpu.fetch (setW false s) (setW false s).pc = none from hfo]
      rfl
    rw [h1, h2]
    rfl
  | some op =>
    have h1 : cycle rnd (setW b s) =
        decode_and_execute rnd (setW b { s with pc := (s.pc + 2) % 65536 }) op := by
      unfold cycle
      rw [show Cpu.fetch (setW b s) (setW b s).pc = some op from hfo]
      rfl
    have h2 : cycle rnd (setW false s) =
        decode_and_execute rnd (setW false { s with pc := (s.pc + 2) % 65536 }) op := by
      unfold cycle
      rw [show Cpu.fetch (setW false s) (setW false s).pc = some op from hfo]
      rfl
    rw [h1, h2, decode_waiting_independent]

/-- C9: executing Fx0A sets the waiting flag, advances PC by 2 and changes
nothing else - no register, memory byte, stack entry, timer or pixel (the
result is literally the input state with only `pc` and `waiting_for_input`
replaced); moreover no step ever depends on the value of the waiting flag:
a cycle from flag `b` equals the cycle from flag `false` with the resulting
flag ORed with `b`. -/
theorem fx0a_sets_flag_only :
    (∀ (s : Cpu) (rnd op : Nat), Cpu.fetch s s.pc = some op →
        0xF007 ≤ op → op ≤ 0xFF65 → op &&& 0x00FF = 0x0A →
        cycle rnd s = some { s with pc := s.pc + 2, waiting_for_input := true }) ∧
    (∀ (s : Cpu) (rnd : Nat) (b : Bool),
        cycle rnd (setW b s) =
          Option.map (fun t => setW (b || t.waiting_for_input) t)
            (cycle rnd (setW false s))) := by
  constructor
  · intro s rnd op hf h1 h2 h0A
    have hb : s.pc + 1 < 4095 := fetch_bound s s.pc op hf
    have hm : (s.pc + 2) % 65536 = s.pc + 2 := by omega
    rw [cycle_eq_of_fetch rnd s op hf, hm, decode_eq_Fxkk rnd _ op h1 h2,
      show op &&& 0x00FF = 0x0A from h0A]
    rfl
  · intro s rnd b
    exact cycle_waiting_independent rnd s b

/-- State whose next instruction is 0xF00A (wait for key press). -/
def cpuWait : Cpu := Cpu.new (memWith [(0x200, 0xF0), (0x201, 0x0A)]) Display.new

/-- Witness for `fx0a_sets_flag_only`: executing 0xF00A from the fresh state
only sets the flag and advances PC. -/
theorem fx0a_sets_flag_only_witness :
    cycle 0 cpuWait = some { cpuWait with pc := cpuWait.pc + 2, waiting_for_input := true } :=
  fx0a_sets_flag_only.1 cpuWait 0 0xF00A rfl (by norm_num) (by norm_num) (by decide)

/-- XOR of two bits stays a bit. -/
theorem xor_le_one {p v : Nat} (hp : p ≤ 1) (hv : v ≤ 1) : p ^^^ v ≤ 1 := by
  interval_cases p <;> interval_cases v <;> decide

/-- The inner draw loop XORs 0/1 values into pixels, so 0/1 pixels stay
0/1. -/
theorem drawBits_pix_le (byte : Nat) (l : List Nat) :
    ∀ (regs : Registers) (d : Display) (sx sy : Nat) regs' d' sx',
      drawBits byte l regs d sx sy = some (regs', d', sx') →
      (∀ a b, d.pixels a b ≤ 1) → ∀ a b, d'.pixels a b ≤ 1 := by
  induction l with
  | nil =>
    intro regs d sx sy regs' d' sx' h hinv
    simp only [drawBits, Option.some_inj, Prod.mk.injEq] at h
    obtain ⟨-, h2, -⟩ := h
    subst h2
    exact hinv
  | cons idx rest ih =>
    intro regs d sx sy regs' d' sx' h hinv
    simp only [drawBits, Option.bind_eq_bind'] at h
    by_cases hxy : sx < 64 ∧ sy < 32
    · simp only [Display.getPixel, Display.setPixel, if_pos hxy, Option.some_bind] at h
      have hd1 : ∀ a b, (⟨fun a b => if a = sx ∧ b = sy
          then d.pixels sx sy ^^^ bitValue byte idx
          else d.pixels a b⟩ : Display).pixels a b ≤ 1 := by
        intro a b
        by_cases hab : a = sx ∧ b = sy
        · simp only [if_pos hab]
          exact xor_le_one (hinv sx sy) (bitValue_le_one byte idx)
        · simp only [if_neg hab]
          exact hinv a b
      by_cases hbreak : sx + 1 > 63
      · rw [if_pos hbreak] at h
        simp only [Option.some_inj, Prod.mk.injEq] at h
        obtain ⟨-, h2, -⟩ := h
        subst h2
        exact hd1
      · rw [if_neg hbreak] at h
        exact ih _ _ _ _ _ _ _ h hd1
    · simp only [Display.getPixel, if_neg hxy] at h
      simp at h

/-- The row loop preserves 0/1 pixels. -/
theorem drawRows_pix_le (x : Nat) (mem : Memory) (l : List Nat) :
    ∀ regs d sx sy regs' d',
      drawRows x mem l regs d sx sy = some (regs', d') →
      (∀ a b, d.pixels a b ≤ 1) → ∀ a b, d'.pixels a b ≤ 1 := by
  induction l with
  | nil =>
    intro regs d sx sy regs' d' h hinv
    simp only [drawRows, Option.some_inj, Prod.mk.injEq] at h
    obtain ⟨-, h2⟩ := h
    subst h2
    exact hinv
  | cons i rest ih =>
    intro regs d sx sy regs' d' h hinv
    simp only [drawRows, Option.bind_eq_bind'] at h
    by_cases hi : i < 4095
    · simp only [Memory.read_u8, if_pos hi, Option.some_bind] at h
      cases hdb : drawBits (mem.memory i) [0, 1, 2, 3, 4, 5, 6, 7] regs d sx sy with
      | none =>
        rw [hdb] at h
        simp at h
      | some trip =>
        obtain ⟨regs1, d1, sxx⟩ := trip
        rw [hdb] at h
        simp only [Option.some_bind] at h
        have hd1 := drawBits_pix_le (mem.memory i) _ _ _ _ _ _ _ _ hdb hinv
        by_cases hy : sy + 1 > 31
        · rw [if_pos hy] at h
          simp only [Option.some_inj, Prod.mk.injEq] at h
          obtain ⟨-, h2⟩ := h
          subst h2
          exact hd1
        · rw [if_neg hy] at h
          exact ih _ _ _ _ _ _ h hd1
    · simp only [Memory.read_u8, if_neg hi] at h
      simp at h

/-- The draw opcode preserves 0/1 pixels. -/
theorem execDraw_pix_le (s : Cpu) (x y n : Nat) (s' : Cpu)
    (h : execDraw s x y n = some s') (hinv : ∀ a b, s.display.pixels a b ≤ 1) :
    ∀ a b, s'.display.pixels a b ≤ 1 := by
  unfold execDraw at h
  simp only [Option.bind_eq_bind'] at h
  by_cases hg : s.i + n < 65536
  · rw [if_pos hg] at h
    cases hdr : drawRows x s.memory (List.range' s.i n) (s.registers.set 15 0) s.display
        ((s.registers.set 15 0).get x % 64) ((s.registers.set 15 0).get y % 32) with
    | none =>
      rw [hdr] at h
      simp at h
    | some pr =>
      obtain ⟨regs1, d1⟩ := pr
      rw [hdr] at h
      simp only [Option.some_bind, Option.some_inj] at h
      subst h
      exact drawRows_pix_le _ _ _ _ _ _ _ _ _ hdr hinv
  · rw [if_neg hg] at h
    simp at h

/-- The key-skip family leaves the display untouched. -/
theorem execKey_display (s : Cpu) (x kk : Nat) (s' : Cpu)
    (h : execKey s x kk = some s') : s'.display = s.display := by
  simp only [execKey, Option.bind_eq_bind'] at h
  split_ifs at h
  · cases hk : Keys.is_pressed s.keys (s.registers.get x) with
    | none =>
      rw [hk] at h
      simp at h
    | some pressed =>
      rw [hk] at h
      simp only [Option.some_bind] at h
      cases pressed
      · rw [if_neg (by simp)] at h
        injection h with h
        subst h
        rfl
      · rw [if_pos rfl] at h
        injection h with h
        subst h
        rfl
  · cases hk : Keys.is_pressed s.keys (s.registers.get x) with
    | none =>
      rw [hk] at h
      simp at h
    | some pressed =>
      rw [hk] at h
      simp only [Option.some_bind] at h
      cases pressed
      · rw [if_neg (by simp)] at h
        injection h with h
        subst h
        rfl
      · rw [if_pos rfl] at h
        injection h with h
        subst h
        rfl
  · injection h with h
    subst h
    rfl

/-- The F family leaves the display untouched. -/
theorem execF_display (s : Cpu) (x kk : Nat) (s' : Cpu)
    (h : execF s x kk = some s') : s'.display = s.display := by
  by_cases h07 : kk = 0x07
  · subst h07
    rw [show execF s x 0x07 = some { s with registers := s.registers.set x s.delay } from rfl] at h
    injection h with h
    subst h
    rfl
  by_cases h0A : kk = 0x0A
  · subst h0A
    rw [show execF s x 0x0A = some { s with waiting_for_input := true } from rfl] at h
    injection h with h
    subst h
    rfl
  by_cases h15 : kk = 0x15
  · subst h15
    rw [show execF s x 0x15 = some { s with delay := s.registers.get x } from rfl] at h
    injection h with h
    subst h
    rfl
  by_cases h18 : kk = 0x18
  · subst h18
    rw [show execF s x 0x18 = some { s with sound := s.registers.get x } from rfl] at h
    injection h with h
    subst h
    rfl
  by_cases h1E : kk = 0x1E
  · subst h1E
    rw [show execF s x 0x1E = some { s with i := (s.i + s.registers.get x) % 65536 } from rfl] at h
    injection h with h
    subst h
    rfl
  by_cases h29 : kk = 0x29
  · subst h29
    rw [show execF s x 0x29 = some { s with i := s.registers.get x * 5 } from rfl] at h
    injection h with h
    subst h
    rfl
  by_cases h33 : kk = 0x33
  · subst h33
    rw [show execF s x 0x33 =
        (bcdWrite s.memory s.i (s.registers.get x)).bind
          (fun mem3 => some { s with memory := mem3 }) from rfl] at h
    cases hw : bcdWrite s.memory s.i (s.registers.get x) with
    | none =>
      rw [hw] at h
      simp at h
    | some m3 =>
      rw [hw] at h
      simp only [Option.some_bind] at h
      injection h with h
      subst h
      rfl
  by_cases h55 : kk = 0x55
  · subst h55
    rw [show execF s x 0x55 =
        (storeRegs s.registers s.i (List.range (x + 1)) s.memory).bind
          (fun mem1 => some { s with memory := mem1 }) from rfl] at h
    cases hw : storeRegs s.registers s.i (List.range (x + 1)) s.memory with
    | none =>
      rw [hw] at h
      simp at h
    | some m1 =>
      rw [hw] at h
      simp only [Option.some_bind] at h
      injection h with h
      subst h
      rfl
  by_cases h65 : kk = 0x65
  · subst h65
    rw [show execF s x 0x65 =
        (loadRegs s.memory s.i (List.range (x + 1)) s.registers).bind
          (fun regs1 => some { s with registers := regs1 }) from rfl] at h
    cases hw : loadRegs s.memory s.i (List.range (x + 1)) s.registers with
    | none =>
      rw [hw] at h
      simp at h
    | some r1 =>
      rw [hw] at h
      simp only [Option.some_bind] at h
      injection h with h
      subst h
      rfl
  simp only [execF] at h
  rw [if_neg h07, if_neg h0A, if_neg h15, if_neg h18, if_neg h1E, if_neg h29,
    if_neg h33, if_neg h55, if_neg h65] at h
  injection h with h
  subst h
  rfl

/-- Every opcode family except 00E0 (clear) and Dxyn (draw) leaves the
display exactly as it was. -/
theorem decode_display_frame (rnd : Nat) (s : Cpu) (op : Nat) (s' : Cpu)
    (h : decode_and_execute rnd s op = some s')
    (hop : ¬ (op = 0x00E0 ∨ (0xD000 ≤ op ∧ op ≤ 0xDFFF))) :
    s'.display = s.display := by
  rcases em (matchedOpcode op) with hm | hm
  · simp only [matchedOpcode] at hm
    rcases hm with h0 | h0 | h0 | h0 | h0 | h0 | h0 | h0 | h0 | h0 | h0 | h0 | h0 | h0 | h0 | h0 | h0
    · exact absurd (Or.inl h0) hop
    · subst h0
      rw [decode_eq_00EE] at h
      split at h
      · injection h with h
        subst h
        rfl
      · exact Option.noConfusion h
    · rw [decode_eq_1nnn rnd s op h0.1 h0.2] at h
      injection h with h
      subst h
      rfl
    · rw [decode_eq_2nnn rnd s op h0.1 h0.2] at h
      split at h
      · injection h with h
        subst h
        rfl
      · exact Option.noConfusion h
    · rw [decode_eq_3xkk rnd s op h0.1 h0.2] at h
      injection h with h
      subst h
      split <;> rfl
    · rw [decode_eq_4xkk rnd s op h0.1 h0.2] at h
      injection h with h
      subst h
      split <;> rfl
    · rw [decode_eq_5xy0 rnd s op h0.1 h0.2] at h
      injection h with h
      subst h
      split <;> rfl
    · rw [decode_eq_6xkk rnd s op h0.1 h0.2] at h
      injection h with h
      subst h
      rfl
    · rw [decode_eq_7xkk rnd s op h0.1 h0.2] at h
      injection h with h
      subst h
      rfl
    · rw [decode_eq_8xyk rnd s op h0.1 h0.2] at h
      injection h with h
      subst h
      rfl
    · rw [decode_eq_9xy0 rnd s op h0.1 h0.2] at h
      injection h with h
      subst h
      split <;> rfl
    · rw [decode_eq_Annn rnd s op h0.1 h0.2] at h
      injection h with h
      subst h
      rfl
    · rw [decode_eq_Bnnn rnd s op h0.1 h0.2] at h
      injection h with h
      subst h
      rfl
    · rw [decode_eq_Cxkk rnd s op h0.1 h0.2] at h
      injection h with h
      subst h
      rfl
    · exact absurd (Or.inr h0) hop
    · rw [decode_eq_Exkk rnd s op h0.1 h0.2] at h
      exact execKey_display s _ _ s' h
    · rw [decode_eq_Fxkk rnd s op h0.1 h0.2] at h
      exact execF_display s _ _ s' h
  · rw [decode_unmatched_none rnd s op hm] at h
    exact Option.noConfusion h

/-- States reachable from a freshly constructed Cpu (its display is the
all-zero `Display.new`) by repeated cycles with arbitrary entropy. -/
inductive Reachable : Cpu → Prop
  | init (m : Memory) : Reachable (Cpu.new m Display.new)
  | step (s s' : Cpu) (rnd : Nat) : Reachable s → cycle rnd s = some s' → Reachable s'

/-- One cycle preserves the pixels-are-bits invariant. -/
theorem cycle_pix_le (rnd : Nat) (s s' : Cpu) (hc : cycle rnd s = some s')
    (hinv : ∀ a b, s.display.pixels a b ≤ 1) : ∀ a b, s'.display.pixels a b ≤ 1 := by
  cases hf : Cpu.fetch s s.pc with
  | none =>
    unfold cycle at hc
    rw [hf] at hc
    exact Option.noConfusion hc
  | some op =>
    rw [cycle_eq_of_fetch rnd s op hf] at hc
    by_cases hE0 : op = 0x00E0
    · subst hE0
      rw [decode_eq_00E0] at hc
      injection hc with hc
      subst hc
      intro a b
      show (0 : Nat) ≤ 1
      omega
    · by_cases hD : 0xD000 ≤ op ∧ op ≤ 0xDFFF
      · rw [decode_eq_Dxyn rnd _ op hD.1 hD.2] at hc
        exact execDraw_pix_le _ _ _ _ _ hc hinv
      · have hfr := decode_display_frame rnd _ op s' hc (by tauto)
        rw [hfr]
        exact hinv

/-- C8: in every state reachable from the initial state (all pixels 0) each
pixel holds 0 or 1, and the display is mutated only by the clear opcode
00E0 and the draw opcodes Dxyn - a step on any other fetched opcode leaves
the display unchanged. -/
theorem display_bits_and_draw_only_mutation :
    (∀ s : Cpu, Reachable s → ∀ a b, s.display.pixels a b ≤ 1) ∧
    (∀ (s s' : Cpu) (rnd op : Nat), Cpu.fetch s s.pc = some op →
        ¬ (op = 0x00E0 ∨ (0xD000 ≤ op ∧ op ≤ 0xDFFF)) →
        cycle rnd s = some s' → s'.display = s.display) := by
  constructor
  · intro s hs
    induction hs with
    | init m =>
      intro a b
      show (0 : Nat) ≤ 1
      omega
    | step t t' rnd hr hc ih => exact cycle_pix_le rnd t t' hc ih
  · intro s s' rnd op hf hop hc
    rw [cycle_eq_of_fetch rnd s op hf] at hc
    exact decode_display_frame rnd { s with pc := (s.pc + 2) % 65536 } op s' hc hop

/-- Witness for `display_bits_and_draw_only_mutation`: the fresh state's
pixel (0,0) is a bit, and the Fx0A step from `cpuWait` (not a display
opcode) leaves the display unchanged. -/
theorem display_bits_and_draw_only_mutation_witness :
    (Cpu.new Memory.new Display.new).display.pixels 0 0 ≤ 1 ∧
    ({ cpuWait with pc := 0x202, waiting_for_input := true } : Cpu).display = cpuWait.display :=
  ⟨display_bits_and_draw_only_mutation.1 (Cpu.new Memory.new Display.new)
      (Reachable.init Memory.new) 0 0,
   display_bits_and_draw_only_mutation.2 cpuWait
      { cpuWait with pc := 0x202, waiting_for_input := true } 0 0xF00A rfl
      (by decide) (by rfl)⟩

/-- The display after one successful pixel write. -/
def writePix (d : Display) (x y v : Nat) : Display :=
  ⟨fun a b => if a = x ∧ b = y then v else d.pixels a b⟩

/-- Reading a `writePix` result. -/
theorem writePix_pixels (d : Display) (x y v a b : Nat) :
    (writePix d x y v).pixels a b = if a = x ∧ b = y then v else d.pixels a b := rfl

/-- A pixel read inside the screen succeeds. -/
theorem getPixel_eq (d : Display) (x y : Nat) (h : x < 64 ∧ y < 32) :
    Display.getPixel d x y = some (d.pixels x y) := by
  simp [Display.getPixel, h]

/-- A pixel write inside the screen succeeds. -/
theorem setPixel_eq (d : Display) (x y v : Nat) (h : x < 64 ∧ y < 32) :
    Display.setPixel d x y v = some (writePix d x y v) := by
  simp [Display.setPixel, writePix, h]

/-- State with V0 = 63 (x position at the right edge), I = 0x300 and the
solid sprite row 0xFF stored at 0x300, over a blank display. -/
def cpuEdge : Cpu :=
  { Cpu.new (memWith [(0x300, 0xFF)]) Display.new with
    i := 0x300, registers := Registers.set (fun _ => 0) 0 63 }

/-- C2 counterexample: executing D011 (draw the 1-row sprite 0xFF at
(V0, V1) = (63, 0)) sets pixel (63,0) but leaves pixel (0,0) clear and
VF = 0.  Wrap-around addressing, as the claim states it, would XOR sprite
column 1 into pixel ((63+1) mod 64, 0) = (0,0), making it 1 (second
conjunct): the code clips at the right edge instead of wrapping. -/
theorem dxyn_clips_instead_of_wrapping :
    Option.map (fun t => (t.display.pixels 0 0, t.display.pixels 63 0, t.registers.get 15))
      (decode_and_execute 0 cpuEdge 0xD011) = some (0, 1, 0) ∧
    cpuEdge.display.pixels ((63 + 1) % 64) ((0 + 0) % 32) ^^^ bitValue 0xFF 1 = 1 := by
  constructor <;> rfl

/-- Full characterization of the inner draw loop on the remaining index
list `[k, ..., 7]`, in the no-clip regime `sx + m <= 64`: every remaining
bit is XORed at consecutive x positions on row `sy`, and vf is set exactly
when a 1-bit meets a set pixel. -/
theorem drawBits_spec (byte : Nat) :
    ∀ (m k : Nat) (regs : Registers) (d : Display) (sx sy : Nat),
      k + m = 8 → sx + m ≤ 64 → sy ≤ 31 →
      ∃ regs' d' sxx,
        drawBits byte (List.range' k m) regs d sx sy = some (regs', d', sxx) ∧
        (∀ a b, d'.pixels a b =
          if b = sy ∧ sx ≤ a ∧ a < sx + m
          then d.pixels a b ^^^ bitValue byte (k + (a - sx))
          else d.pixels a b) ∧
        regs' = (if regs.get 15 = 0 ∧
            (∃ j, j < m ∧ bitValue byte (k + j) = 1 ∧ d.pixels (sx + j) sy = 1)
          then regs.set 15 1 else regs) := by
  intro m
  induction m with
  | zero =>
    intro k regs d sx sy hk hsx hsy
    refine ⟨regs, d, sx, rfl, ?_, ?_⟩
    · intro a b
      rw [if_neg (fun hc => by omega)]
    · rw [if_neg ?_]
      rintro ⟨-, j, hj, -⟩
      omega
  | succ m ih =>
    intro k regs d sx sy hk hsx hsy
    have hcond : sx < 64 ∧ sy < 32 := by omega
    rw [show List.range' k (m + 1) = k :: List.range' (k + 1) m from rfl]
    simp only [drawBits, Option.bind_eq_bind']
    rw [getPixel_eq d sx sy hcond]
    simp only [Option.some_bind]
    rw [setPixel_eq d sx sy (d.pixels sx sy ^^^ bitValue byte k) hcond]
    simp only [Option.some_bind]
    by_cases hbr : sx + 1 > 63
    · rw [if_pos hbr]
      have hm0 : m = 0 := by omega
      subst hm0
      refine ⟨_, _, _, rfl, ?_, ?_⟩
      · intro a b
        rw [writePix_pixels]
        by_cases hab : a = sx ∧ b = sy
        · rw [if_pos hab, if_pos (by omega)]
          obtain ⟨ha, hb⟩ := hab
          subst ha
          subst hb
          simp
        · rw [if_neg hab, if_neg (by omega)]
      · by_cases hC : regs.get 15 = 0 ∧ bitValue byte k = 1 ∧ d.pixels sx sy = 1
        · rw [if_pos hC, if_pos ⟨hC.1, 0, by omega, by simpa using hC.2.1,
            by simpa using hC.2.2⟩]
        · rw [if_neg hC, if_neg ?_]
          rintro ⟨hv, j, hj, hb, hp⟩
          have hj0 : j = 0 := by omega
          subst hj0
          exact hC ⟨hv, by simpa using hb, by simpa using hp⟩
    · rw [if_neg hbr]
      obtain ⟨regs', d', sxx, heq, hpix, hregs⟩ :=
        ih (k + 1)
          (if regs.get 15 = 0 ∧ bitValue byte k = 1 ∧ d.pixels sx sy = 1
            then regs.set 15 1 else regs)
          (writePix d sx sy (d.pixels sx sy ^^^ bitValue byte k)) (sx + 1) sy
          (by omega) (by omega) hsy
      refine ⟨regs', d', sxx, heq, ?_, ?_⟩
      · intro a b
        rw [hpix a b]
        simp only [writePix_pixels]
        by_cases h1 : b = sy ∧ sx + 1 ≤ a ∧ a < sx + 1 + m
        · rw [if_pos h1, if_neg (show ¬(a = sx ∧ b = sy) by omega), if_pos (by omega)]
          have he : k + 1 + (a - (sx + 1)) = k + (a - sx) := by omega
          rw [he]
        · rw [if_neg h1]
          by_cases h2 : a = sx ∧ b = sy
          · rw [if_pos h2, if_pos (by omega)]
            obtain ⟨ha, hb⟩ := h2
            subst ha
            subst hb
            simp
          · rw [if_neg h2, if_neg (by intro hc; omega)]
      · have hwp : ∀ j : Nat,
            (writePix d sx sy (d.pixels sx sy ^^^ bitValue byte k)).pixels (sx + 1 + j) sy =
              d.pixels (sx + 1 + j) sy := by
          intro j
          rw [writePix_pixels, if_neg (fun hc => by omega)]
        by_cases hC0 : regs.get 15 = 0 ∧ bitValue byte k = 1 ∧ d.pixels sx sy = 1
        · rw [if_pos hC0] at hregs
          rw [Registers.get_set_self] at hregs
          rw [if_neg (by rintro ⟨h1, -⟩; omega)] at hregs
          rw [hregs, if_pos ⟨hC0.1, 0, by omega, by simpa using hC0.2.1,
            by simpa using hC0.2.2⟩]
        · rw [if_neg hC0] at hregs
          simp only [hwp] at hregs
          by_cases hv : regs.get 15 = 0
          · by_cases hEx : ∃ j, j < m ∧ bitValue byte (k + 1 + j) = 1 ∧
                d.pixels (sx + 1 + j) sy = 1
            · rw [if_pos ⟨hv, hEx⟩] at hregs
              obtain ⟨j, hj, hb, hp⟩ := hEx
              rw [hregs, if_pos ⟨hv, j + 1, by omega,
                by rw [show k + (j + 1) = k + 1 + j from by omega]; exact hb,
                by rw [show sx + (j + 1) = sx + 1 + j from by omega]; exact hp⟩]
            · rw [if_neg (fun h => hEx h.2)] at hregs
              rw [hregs, if_neg ?_]
              rintro ⟨-, j, hj, hb, hp⟩
              cases j with
              | zero =>
                exact hC0 ⟨hv, by simpa using hb, by simpa using hp⟩
              | succ j =>
                refine hEx ⟨j, by omega, ?_, ?_⟩
                · rw [show k + 1 + j = k + (j + 1) from by omega]
                  exact hb
                · rw [show sx + 1 + j = sx + (j + 1) from by omega]
                  exact hp
          · rw [if_neg (fun h => hv h.1)] at hregs
            rw [hregs, if_neg (fun h => hv h.1)]

open Classical in
/-- Full characterization of the row loop in the no-clip regime: with the
start column Vx = regs.get x satisfying Vx + 8 <= 64 and all rows on screen
and in memory, every sprite bit (row, col) is XORed at (Vx+col, sy+row) and
vf records exactly whether some 1-bit met a set pixel. -/
theorem drawRows_spec (x : Nat) (mem : Memory) (hx : x ≠ 15) :
    ∀ (m : Nat) (i : Nat) (regs : Registers) (d : Display) (sy : Nat),
      regs.get x + 8 ≤ 64 → sy + m ≤ 32 → i + m ≤ 4095 →
      ∃ regs' d',
        drawRows x mem (List.range' i m) regs d (regs.get x) sy = some (regs', d') ∧
        (∀ a b, d'.pixels a b =
          if regs.get x ≤ a ∧ a < regs.get x + 8 ∧ sy ≤ b ∧ b < sy + m
          then d.pixels a b ^^^ bitValue (mem.memory (i + (b - sy))) (a - regs.get x)
          else d.pixels a b) ∧
        regs' = (if regs.get 15 = 0 ∧
            (∃ row, row < m ∧ ∃ col, col < 8 ∧
              bitValue (mem.memory (i + row)) col = 1 ∧
              d.pixels (regs.get x + col) (sy + row) = 1)
          then regs.set 15 1 else regs) := by
  intro m
  induction m with
  | zero =>
    intro i regs d sy hvx hsy hmem
    refine ⟨regs, d, rfl, ?_, ?_⟩
    · intro a b
      rw [if_neg (by omega)]
    · rw [if_neg ?_]
      rintro ⟨-, row, hr, -⟩
      omega
  | succ m ih =>
    intro i regs d sy hvx hsy hmem
    rw [show List.range' i (m + 1) = i :: List.range' (i + 1) m from rfl]
    simp only [drawRows, Option.bind_eq_bind']
    have hrd : Memory.read_u8 mem i = some (mem.memory i) := by
      unfold Memory.read_u8
      rw [if_pos (by omega)]
    rw [hrd]
    simp only [Option.some_bind]
    rw [show ([0, 1, 2, 3, 4, 5, 6, 7] : List Nat) = List.range' 0 8 from rfl]
    obtain ⟨regs1, d1, sxx, heqB, hpixB, hregsB⟩ :=
      drawBits_spec (mem.memory i) 8 0 regs d (regs.get x) sy rfl (by omega) (by omega)
    simp only [Nat.zero_add] at hpixB hregsB
    rw [heqB]
    simp only [Option.some_bind]
    have hgx : regs1.get x = regs.get x := by
      rw [hregsB]
      split
      · exact Registers.get_set_ne _ _ hx
      · rfl
    by_cases hy : sy + 1 > 31
    · rw [if_pos hy]
      have hm0 : m = 0 := by omega
      subst hm0
      refine ⟨regs1, d1, rfl, ?_, ?_⟩
      · intro a b
        by_cases hc : b = sy ∧ regs.get x ≤ a ∧ a < regs.get x + 8
        · rw [hpixB a b, if_pos hc, if_pos (by omega)]
          obtain ⟨hb, -, -⟩ := hc
          subst hb
          simp
        · rw [hpixB a b, if_neg hc, if_neg (by intro hc; omega)]
      · by_cases hcc : regs.get 15 = 0 ∧ ∃ j, j < 8 ∧ bitValue (mem.memory i) j = 1 ∧
            d.pixels (regs.get x + j) sy = 1
        · obtain ⟨hv, j, hj, hb, hp⟩ := hcc
          rw [hregsB, if_pos ⟨hv, j, hj, hb, hp⟩,
            if_pos ⟨hv, 0, by omega, j, hj, by simpa using hb, by simpa using hp⟩]
        · rw [hregsB, if_neg hcc, if_neg ?_]
          rintro ⟨hv, row, hr, col, hc2, hb, hp⟩
          have hr0 : row = 0 := by omega
          subst hr0
          exact hcc ⟨hv, col, hc2, by simpa using hb, by simpa using hp⟩
    · rw [if_neg hy]
      obtain ⟨regs', d', heqR, hpixR, hregsR⟩ :=
        ih (i + 1) regs1 d1 (sy + 1) (by rw [hgx]; exact hvx) (by omega) (by omega)
      rw [heqR]
      rw [hgx] at hpixR hregsR
      refine ⟨regs', d', rfl, ?_, ?_⟩
      · intro a b
        rw [hpixR a b]
        by_cases h1 : regs.get x ≤ a ∧ a < regs.get x + 8 ∧ sy + 1 ≤ b ∧ b < sy + 1 + m
        · rw [if_pos h1, hpixB a b, if_neg (fun hc => by omega), if_pos (by omega)]
          rw [show i + 1 + (b - (sy + 1)) = i + (b - sy) from by omega]
        · rw [if_neg h1, hpixB a b]
          by_cases h2 : b = sy ∧ regs.get x ≤ a ∧ a < regs.get x + 8
          · rw [if_pos h2, if_pos (by omega)]
            obtain ⟨hb, -, -⟩ := h2
            subst hb
            simp
          · rw [if_neg h2, if_neg (by omega)]
      · have hd1row : ∀ c r : Nat,
            d1.pixels (regs.get x + c) (sy + 1 + r) = d.pixels (regs.get x + c) (sy + 1 + r) := by
          intro c r
          rw [hpixB, if_neg (by intro hc; omega)]
        simp only [hd1row] at hregsR
        by_cases hC1 : regs.get 15 = 0 ∧ ∃ j, j < 8 ∧ bitValue (mem.memory i) j = 1 ∧
            d.pixels (regs.get x + j) sy = 1
        · obtain ⟨hv, j, hj, hb, hp⟩ := hC1
          rw [if_pos ⟨hv, j, hj, hb, hp⟩] at hregsB
          rw [hregsB, Registers.get_set_self] at hregsR
          rw [if_neg (by rintro ⟨h1, -⟩; omega)] at hregsR
          rw [hregsR,
            if_pos ⟨hv, 0, by omega, j, hj, by simpa using hb, by simpa using hp⟩]
        · rw [if_neg hC1] at hregsB
          rw [hregsB] at hregsR hgx
          by_cases hv : regs.get 15 = 0
          · by_cases hEx : ∃ row, row < m ∧ ∃ col, col < 8 ∧
                bitValue (mem.memory (i + 1 + row)) col = 1 ∧
                d.pixels (regs.get x + col) (sy + 1 + row) = 1
            · rw [if_pos ⟨hv, hEx⟩] at hregsR
              obtain ⟨row, hr, col, hc2, hb, hp⟩ := hEx
              rw [hregsR, if_pos ⟨hv, row + 1, by omega, col, hc2,
                by rw [show i + (row + 1) = i + 1 + row from by omega]; exact hb,
                by rw [show sy + (row + 1) = sy + 1 + row from by omega]; exact hp⟩]
            · rw [if_neg (fun h => hEx h.2)] at hregsR
              rw [hregsR, if_neg ?_]
              rintro ⟨-, row, hr, col, hc2, hb, hp⟩
              cases row with
              | zero =>
                exact hC1 ⟨hv, col, hc2, by simpa using hb, by simpa using hp⟩
              | succ row =>
                refine hEx ⟨row, by omega, col, hc2, ?_, ?_⟩
                · rw [show i + 1 + row = i + (row + 1) from by omega]
                  exact hb
                · rw [show sy + 1 + row = sy + (row + 1) from by omega]
                  exact hp
          · rw [if_neg (fun h => hv h.1)] at hregsR
            rw [hregsR, if_neg (fun h => hv h.1)]

/-- State with V0 = 8, V1 = 3, I = 0x300 and the sprite rows 0xFF, 0x81
stored at 0x300, over a blank display: a fully on-screen two-row draw. -/
def cpuDraw : Cpu :=
  { Cpu.new (memWith [(0x300, 0xFF), (0x301, 0x81)]) Display.new with
    i := 0x300,
    registers := Registers.set (Registers.set (fun _ => 0) 0 8) 1 3 }

/-- C2 (amended): for a Dxyn draw whose sprite lies fully on screen
(Vx + 8 <= 64, Vy + n <= 32) and fully inside memory, with register indices
x, y distinct from 0xF, every sprite bit (row, col) is composed by XOR at
screen coordinate (Vx + col, Vy + row) -- no modular wrap-around is
involved; at the edges the code clips instead of wrapping -- VF ends 1
exactly when some 1-bit lands on a pixel that is already 1 (else 0), and no
other register, nor pc, I or the memory, changes. -/
theorem dxyn_onscreen_draw_xor_collision (s : Cpu) (x y n : Nat)
    (hx : x ≠ 15) (hy : y ≠ 15)
    (hclipX : s.registers.get x + 8 ≤ 64)
    (hclipY : s.registers.get y + n ≤ 32)
    (hmem : s.i + n ≤ 4095) :
    ∃ s', execDraw s x y n = some s' ∧
      (∀ a b, s'.display.pixels a b =
        if s.registers.get x ≤ a ∧ a < s.registers.get x + 8 ∧
           s.registers.get y ≤ b ∧ b < s.registers.get y + n
        then s.display.pixels a b ^^^
          bitValue (s.memory.memory (s.i + (b - s.registers.get y)))
            (a - s.registers.get x)
        else s.display.pixels a b) ∧
      (s'.registers.get 15 = 1 ↔
        ∃ row, row < n ∧ ∃ col, col < 8 ∧
          bitValue (s.memory.memory (s.i + row)) col = 1 ∧
          s.display.pixels (s.registers.get x + col) (s.registers.get y + row) = 1) ∧
      (∀ j, j ≠ 15 → s'.registers.get j = s.registers.get j) ∧
      s'.pc = s.pc ∧ s'.i = s.i ∧ s'.memory = s.memory := by
  have hgx : (s.registers.set 15 0).get x = s.registers.get x :=
    Registers.get_set_ne _ _ hx
  have hgy : (s.registers.set 15 0).get y = s.registers.get y :=
    Registers.get_set_ne _ _ hy
  by_cases hn : n = 0
  · subst hn
    simp only [execDraw, Option.bind_eq_bind']
    rw [if_pos (show s.i + 0 < 65536 by omega)]
    refine ⟨_, rfl, ?_, ?_, ?_, rfl, rfl, rfl⟩
    · intro a b
      show s.display.pixels a b = _
      rw [if_neg (by rintro ⟨-, -, h1, h2⟩; omega)]
    · show (s.registers.set 15 0).get 15 = 1 ↔ _
      rw [Registers.get_set_self]
      exact iff_of_false (by omega) (by rintro ⟨row, hr, -⟩; omega)
    · intro j hj
      exact Registers.get_set_ne _ _ hj
  · have hxlt : s.registers.get x < 64 := by omega
    have hylt : s.registers.get y < 32 := by omega
    obtain ⟨regs', d', heq, hpix, hregs⟩ :=
      drawRows_spec x s.memory hx n s.i (s.registers.set 15 0) s.display
        (s.registers.get y) (by rw [hgx]; omega) (by omega) hmem
    rw [hgx] at heq hpix hregs
    simp only [execDraw, Option.bind_eq_bind']
    rw [if_pos (show s.i + n < 65536 by omega)]
    simp only [hgx, hgy]
    rw [Nat.mod_eq_of_lt hxlt, Nat.mod_eq_of_lt hylt, heq]
    simp only [Option.some_bind]
    refine ⟨_, rfl, ?_, ?_, ?_, rfl, rfl, rfl⟩
    · intro a b
      show d'.pixels a b = _
      rw [hpix a b]
    · show regs'.get 15 = 1 ↔ _
      by_cases hC : ∃ row, row < n ∧ ∃ col, col < 8 ∧
          bitValue (s.memory.memory (s.i + row)) col = 1 ∧
          s.display.pixels (s.registers.get x + col) (s.registers.get y + row) = 1
      · rw [hregs, if_pos ⟨Registers.get_set_self _ _ _, hC⟩, Registers.get_set_self]
        exact iff_of_true rfl hC
      · rw [hregs, if_neg (fun h => hC h.2), Registers.get_set_self]
        exact iff_of_false (by omega) hC
    · intro j hj
      show regs'.get j = _
      rw [hregs]
      split
      · rw [Registers.get_set_ne _ _ hj, Registers.get_set_ne _ _ hj]
      · rw [Registers.get_set_ne _ _ hj]

/-- C2 witness: the amended draw theorem applies to the concrete state
cpuDraw (V0 = 8, V1 = 3, two sprite rows at I = 0x300): its hypotheses hold
there and the D012 draw succeeds. -/
theorem dxyn_onscreen_draw_xor_collision_witness :
    (execDraw cpuDraw 0 1 2).isSome = true := by
  obtain ⟨s', heq, -, -, -, -, -⟩ :=
    dxyn_onscreen_draw_xor_collision cpuDraw 0 1 2 (by decide) (by decide)
      (by decide) (by decide) (by decide)
  rw [heq]
  rfl
